import Mathlib

/-!
# cgroup-container-exporter: collection loop, discovery adapters, reader and resolver

A shallow embedding of `main.go`, `metrics.go`, `docker.go` and `kubernetes.go`.

* Go `int` readings are `Int`; `float64(value)` is the identity on them (exact for every
  reading below `2^53`), so a sample held by a sink is an `Int`.
* A Go slice is a `List`; the `nil` slice is `[]`.
* A Go run-time panic (index out of range, nil dereference, the metrics library refusing a
  negative counter increment) is the `Except.error` of an `Except Panic _`: the process dies
  and no later statement runs.
* The metric sinks (`GaugeVec`/`CounterVec` of the metrics client library) are explicit state,
  the `Registry`, threaded through `updateMetrics`.
* `FindCgroup`, `CGroup.ReadInteger` and `CGroup.ReadIntegerField` are called by `main.go` and
  defined outside these four files: the collection loop takes them as the parameter `HostFS`;
  the definitions `ReadKeyedField`, `ReadScalar` and `Resolve` further down follow the
  specification's description of them.
-/

set_option autoImplicit false

namespace CgroupExporter

/-! ## Data model -/

/-- `Sandbox` of `main.go`. -/
structure Sandbox where
  ID : String
  Container : String
  Namespace : String
  Pod : String
deriving DecidableEq, Repr

/-- The label values `(container, namespace, pod)` a series is addressed by. -/
abbrev LabelValues := String × String × String

/-- The argument list of `WithLabelValues(c.Container, c.Namespace, c.Pod)`. -/
def Sandbox.labels (c : Sandbox) : LabelValues := (c.Container, c.Namespace, c.Pod)

/-- `Metric` of `metrics.go`. A `*GaugeVec` / `*CounterVec` is identified by the `Name` it was
registered under; `none` is the `nil` pointer. -/
structure Metric where
  gauge : Option String
  counter : Option String
  cgroupFile : String
  cgroupFileField : String
deriving DecidableEq, Repr

/-- Run-time panics the embedded code can raise. -/
inductive Panic where
  | counterCannotDecrease
  | indexOutOfRange
  | nilDereference
deriving DecidableEq, Repr

/-! ## Metric sinks -/

/-- One metric vector: the sample of each label set, `none` while the series does not exist. -/
abbrev Vec := LabelValues → Option Int

/-- The process-wide metric registry: every gauge vector and every counter vector by name. -/
structure Registry where
  gauges : String → Vec
  counters : String → Vec

/-- The registry right after start-up: no series exists yet. -/
def Registry.empty : Registry := ⟨fun _ _ => none, fun _ _ => none⟩

/-- `GaugeVec.WithLabelValues(lv...).Set(v)`: the series is created if needed and its sample
replaced by `v`. -/
def Registry.gaugeSet (r : Registry) (name : String) (lv : LabelValues) (v : Int) : Registry :=
  ⟨Function.update r.gauges name (Function.update (r.gauges name) lv (some v)), r.counters⟩

/-- `CounterVec.WithLabelValues(lv...).Add(v)`: the series is created at `0` if needed and `v`
is added to its sample; the library panics on a negative `v`. -/
def Registry.counterAdd (r : Registry) (name : String) (lv : LabelValues) (v : Int) :
    Except Panic Registry :=
  if v < 0 then .error .counterCannotDecrease
  else .ok ⟨r.gauges, Function.update r.counters name
    (Function.update (r.counters name) lv (some ((r.counters name lv).getD 0 + v)))⟩

/-! ## Host filesystem access (parameters of the collection loop) -/

/-- `CGroup`: the handle `FindCgroup` returns, the resolved directory. -/
structure CGroup where
  path : String
deriving DecidableEq, Repr

/-- The errors of the resolver and of the stat-file reader. -/
inductive CgroupError where
  | notFound
  | ioFailure
  | fileUnreadable
  | fieldNotFound
  | parseError
deriving DecidableEq, Repr

/-- What the mounted host filesystem answers during one poll cycle to the three functions
`main.go` calls: `FindCgroup(hostPath, id)`, `cgroup.ReadInteger(file)` and
`cgroup.ReadIntegerField(file, field)`. -/
structure HostFS where
  FindCgroup : String → String → Except CgroupError CGroup
  ReadInteger : CGroup → String → Except CgroupError Int
  ReadIntegerField : CGroup → String → String → Except CgroupError Int

/-! ## The metric catalog (`metrics.go`) -/

/-- A catalog entry published through a gauge vector. -/
def gaugeMetric (name file field : String) : Metric := ⟨some name, none, file, field⟩

/-- A catalog entry published through a counter vector. -/
def counterMetric (name file field : String) : Metric := ⟨none, some name, file, field⟩

/-- `cgroupMetrics` of `metrics.go`, in source order. -/
def cgroupMetrics : List Metric :=
  [ gaugeMetric "cgroup_memory_current_bytes" "memory.current" "",
    gaugeMetric "cgroup_memory_peak_bytes" "memory.peak" "",
    gaugeMetric "cgroup_memory_low_bytes" "memory.low" "",
    gaugeMetric "cgroup_memory_high_bytes" "memory.high" "",
    gaugeMetric "cgroup_memory_max_bytes" "memory.max" "",
    gaugeMetric "cgroup_memory_stat_anon_bytes" "memory.stat" "anon",
    gaugeMetric "cgroup_memory_stat_file_bytes" "memory.stat" "file",
    gaugeMetric "cgroup_memory_stat_shmem_bytes" "memory.stat" "shmem",
    gaugeMetric "cgroup_memory_stat_kernel_bytes" "memory.stat" "kernel",
    gaugeMetric "cgroup_memory_stat_slab_bytes" "memory.stat" "slab",
    gaugeMetric "cgroup_memory_stat_slab_reclaimable_bytes" "memory.stat" "slab_reclaimable",
    gaugeMetric "cgroup_memory_stat_slab_unreclaimable_bytes" "memory.stat" "slab_unreclaimable",
    gaugeMetric "cgroup_memory_stat_pagetables_bytes" "memory.stat" "pagetables",
    gaugeMetric "cgroup_memory_stat_kernel_stack_bytes" "memory.stat" "kernel_stack",
    gaugeMetric "cgroup_memory_stat_active_anon_bytes" "memory.stat" "active_anon",
    gaugeMetric "cgroup_memory_stat_inactive_anon_bytes" "memory.stat" "inactive_anon",
    gaugeMetric "cgroup_memory_stat_active_file_bytes" "memory.stat" "active_file",
    gaugeMetric "cgroup_memory_stat_inactive_file_bytes" "memory.stat" "inactive_file",
    gaugeMetric "cgroup_memory_stat_unevictable_bytes" "memory.stat" "unevictable",
    counterMetric "cgroup_memory_stat_pgfault_total" "memory.stat" "pgfault",
    counterMetric "cgroup_memory_stat_pgmajfault_total" "memory.stat" "pgmajfault",
    counterMetric "cgroup_cpu_usage_usec" "cpu.stat" "usage_usec",
    counterMetric "cgroup_cpu_user_usec" "cpu.stat" "user_usec",
    counterMetric "cgroup_cpu_system_usec" "cpu.stat" "system_usec",
    counterMetric "cgroup_cpu_nr_periods_total" "cpu.stat" "nr_periods",
    counterMetric "cgroup_cpu_nr_throttled_total" "cpu.stat" "nr_throttled",
    counterMetric "cgroup_cpu_throttled_usec_total" "cpu.stat" "throttled_usec",
    gaugeMetric "cgroup_pids_current" "pids.current" "",
    gaugeMetric "cgroup_pids_max" "pids.max" "",
    gaugeMetric "cgroup_pids_peak" "pids.peak" "" ]

/-! ## The collection loop (`main.go`) -/

/-- `readMetricValue`: the scalar reader when the entry names no field, else the keyed one. -/
def readMetricValue (fs : HostFS) (cgroup : CGroup) (metric : Metric) : Except CgroupError Int :=
  if metric.cgroupFileField = "" then fs.ReadInteger cgroup metric.cgroupFile
  else fs.ReadIntegerField cgroup metric.cgroupFile metric.cgroupFileField

/-- Lines 84-88 of `updateMetrics`: `Set` on the gauge when the entry has one, else `Add` on
the counter when it has one, else nothing. -/
def publish (metric : Metric) (c : Sandbox) (value : Int) (r : Registry) : Except Panic Registry :=
  match metric.gauge with
  | some g => .ok (r.gaugeSet g c.labels value)
  | none =>
    match metric.counter with
    | some k => r.counterAdd k c.labels value
    | none => .ok r

/-- The `for _, metric := range ...` loop of `updateMetrics` (lines 76-89) over a catalog:
a failed read is logged and the entry skipped (`continue`). -/
def updateLoop (fs : HostFS) (cgroup : CGroup) (c : Sandbox) :
    List Metric → Registry → Except Panic Registry
  | [], r => .ok r
  | metric :: rest, r =>
    match readMetricValue fs cgroup metric with
    | .error _ => updateLoop fs cgroup c rest r
    | .ok value =>
      match publish metric c value r with
      | .error p => .error p
      | .ok r1 => updateLoop fs cgroup c rest r1

/-- `updateMetrics` over an arbitrary catalog: a failed `FindCgroup` is logged and the sandbox
skipped (`return`). -/
def updateMetricsOver (catalog : List Metric) (hostPath : String) (fs : HostFS) (c : Sandbox)
    (r : Registry) : Except Panic Registry :=
  match fs.FindCgroup hostPath c.ID with
  | .error _ => .ok r
  | .ok cgroup => updateLoop fs cgroup c catalog r

/-- `updateMetrics` of `main.go`: the catalog is the global `cgroupMetrics`. -/
def updateMetrics (hostPath : String) (fs : HostFS) (c : Sandbox) (r : Registry) :
    Except Panic Registry :=
  updateMetricsOver cgroupMetrics hostPath fs c r

/-- Lines 50-52 of `pollMetrics`: `updateMetrics` for each sandbox of the list, in order. -/
def updateAll (hostPath : String) (fs : HostFS) : List Sandbox → Registry → Except Panic Registry
  | [], r => .ok r
  | c :: rest, r =>
    match updateMetrics hostPath fs c r with
    | .error p => .error p
    | .ok r1 => updateAll hostPath fs rest r1

/-! ## Discovery adapter for the container engine (`docker.go`) -/

/-- A discovery call that failed: the engine or runtime service could not be reached, or its
answer could not be decoded. -/
inductive DiscoveryError where
  | unreachable
  | malformed
deriving DecidableEq, Repr

/-- `container` of `docker.go`: one element of the decoded `/containers/json` answer. -/
structure container where
  ID : String
  Names : List String
  State : String
deriving DecidableEq, Repr

/-- `strings.TrimPrefix(s, pre)`: `s` without the leading `pre` when it starts with it, else
`s` unchanged. -/
def trimLeading (s pre : String) : String :=
  if pre.data.isPrefixOf s.data then ⟨s.data.drop pre.data.length⟩ else s

/-- The sandbox `listDockerContainers` builds for a container whose first name is `n`. -/
def dockerEntry (c : container) (n : String) : Sandbox := ⟨c.ID, trimLeading n "/", "", ""⟩

/-- The `for _, c := range containers` loop of `listDockerContainers` (lines 45-57); `acc` is
`controlGroups`. `c.Names[0]` panics on an empty `Names`. -/
def dockerLoop : List container → List Sandbox → Except Panic (List Sandbox)
  | [], acc => .ok acc
  | c :: rest, acc =>
    if c.State = "running" then
      match c.Names with
      | [] => .error .indexOutOfRange
      | n :: _ => dockerLoop rest (acc ++ [⟨c.ID, trimLeading n "/", "", ""⟩])
    else dockerLoop rest acc

/-- `listDockerContainers`: `response` is the outcome of the HTTP request and of decoding its
body (lines 28-41), an error of either being returned as is. -/
def listDockerContainers (response : Except DiscoveryError (List container)) :
    Except Panic (Except DiscoveryError (List Sandbox)) :=
  match response with
  | .error e => .ok (.error e)
  | .ok containers =>
    match dockerLoop containers [] with
    | .error p => .error p
    | .ok controlGroups => .ok (.ok controlGroups)

/-! ## Discovery adapter for the CRI runtime service (`kubernetes.go`) -/

namespace runtimeapi

/-- `PodSandboxState` of the CRI API. -/
inductive PodSandboxState where
  | SANDBOX_READY
  | SANDBOX_NOTREADY
deriving DecidableEq, Repr

/-- `ContainerState` of the CRI API. -/
inductive ContainerState where
  | CONTAINER_CREATED
  | CONTAINER_RUNNING
  | CONTAINER_EXITED
  | CONTAINER_UNKNOWN
deriving DecidableEq, Repr

/-- `PodSandboxMetadata` of the CRI API (the fields the adapter reads). -/
structure PodSandboxMetadata where
  Name : String
  Uid : String
  Namespace : String
deriving DecidableEq, Repr

/-- `PodSandbox` of the CRI API; `Metadata` is a pointer, `none` when nil. -/
structure PodSandbox where
  Id : String
  Metadata : Option PodSandboxMetadata
  State : PodSandboxState
deriving DecidableEq, Repr

/-- `ContainerMetadata` of the CRI API. -/
structure ContainerMetadata where
  Name : String
deriving DecidableEq, Repr

/-- `Container` of the CRI API; `Metadata` is a pointer, `none` when nil. -/
structure Container where
  Id : String
  Metadata : Option ContainerMetadata
  State : ContainerState
deriving DecidableEq, Repr

end runtimeapi

open runtimeapi

/-- What the runtime service answers during one discovery call: the outcome of creating the
client, of `ListPodSandbox`, and of `ListContainers` filtered by a pod sandbox id. -/
structure RuntimeService where
  NewClient : Except DiscoveryError Unit
  ListPodSandbox : Except DiscoveryError (List PodSandbox)
  ListContainers : String → Except DiscoveryError (List Container)

/-- The `for _, container := range containers.Containers` loop (lines 52-64) for the pod with
metadata `md`; the debug log of line 53 dereferences `container.Metadata`. -/
def containersLoop (md : PodSandboxMetadata) : List Container → List Sandbox →
    Except Panic (List Sandbox)
  | [], acc => .ok acc
  | ctr :: rest, acc =>
    match ctr.Metadata with
    | none => .error .nilDereference
    | some cm =>
      if ctr.State = ContainerState.CONTAINER_RUNNING then
        containersLoop md rest (acc ++ [⟨ctr.Id, cm.Name, md.Namespace, md.Name⟩])
      else containersLoop md rest acc

/-- The `for _, pod := range resp.Items` loop (lines 30-65); `acc` is `controlGroups`. Both
branches of the state test dereference `pod.Metadata`; the containers of the pod are listed
after the test, whatever its outcome, and a failed `ListContainers` skips to the next pod. -/
def podsLoop (svc : RuntimeService) : List PodSandbox → List Sandbox → Except Panic (List Sandbox)
  | [], acc => .ok acc
  | pod :: rest, acc =>
    match pod.Metadata with
    | none => .error .nilDereference
    | some md =>
      let acc1 :=
        if pod.State = PodSandboxState.SANDBOX_READY then
          acc ++ [⟨pod.Id, "", md.Namespace, md.Name⟩]
        else acc
      match svc.ListContainers pod.Id with
      | .error _ => podsLoop svc rest acc1
      | .ok containers =>
        match containersLoop md containers acc1 with
        | .error p => .error p
        | .ok acc2 => podsLoop svc rest acc2

/-- `listKubernetesPods` of `kubernetes.go`. -/
def listKubernetesPods (svc : RuntimeService) :
    Except Panic (Except DiscoveryError (List Sandbox)) :=
  match svc.NewClient with
  | .error e => .ok (.error e)
  | .ok _ =>
    match svc.ListPodSandbox with
    | .error e => .ok (.error e)
    | .ok items =>
      match podsLoop svc items [] with
      | .error p => .error p
      | .ok controlGroups => .ok (.ok controlGroups)

/-- `sb` is the sandbox `listKubernetesPods` builds for the pod sandbox `pod` itself. -/
def IsPodEntry (pod : PodSandbox) (sb : Sandbox) : Prop :=
  ∃ md, pod.Metadata = some md ∧ sb = ⟨pod.Id, "", md.Namespace, md.Name⟩

/-- `sb` is the sandbox `listKubernetesPods` builds for a container in state
`CONTAINER_RUNNING` that the runtime service lists under the pod sandbox `pod`. -/
def IsRunningContainerEntry (svc : RuntimeService) (pod : PodSandbox) (sb : Sandbox) : Prop :=
  ∃ md, pod.Metadata = some md ∧ ∃ cs, svc.ListContainers pod.Id = .ok cs ∧
    ∃ ctr ∈ cs, ctr.State = ContainerState.CONTAINER_RUNNING ∧
      ∃ cm, ctr.Metadata = some cm ∧ sb = ⟨ctr.Id, cm.Name, md.Namespace, md.Name⟩

/-! ## The poll loop (`main.go`) -/

/-- The command-line flags the loop reads. -/
structure Config where
  mode : String
  hostPath : String

/-- What the process observes during one timer tick: the container engine's answer, the
runtime service, and the mounted host filesystem. -/
structure Tick where
  docker : Except DiscoveryError (List container)
  cri : RuntimeService
  fs : HostFS

/-- `getCgroupList`: the adapter chosen by `mode`; any other mode yields `nil, nil`. -/
def getCgroupList (mode : String) (t : Tick) :
    Except Panic (Except DiscoveryError (List Sandbox)) :=
  if mode = "kubernetes" then listKubernetesPods t.cri
  else if mode = "docker" then listDockerContainers t.docker
  else .ok (.ok [])

/-- One iteration of the `for` loop of `pollMetrics` after the ticker fired (lines 39-52):
a failed discovery and a `nil` list both `continue` without touching the sinks. -/
def pollCycle (cfg : Config) (t : Tick) (r : Registry) : Except Panic Registry :=
  match getCgroupList cfg.mode t with
  | .error p => .error p
  | .ok (.error _) => .ok r
  | .ok (.ok cgroupList) =>
    if cgroupList = [] then .ok r
    else updateAll cfg.hostPath t.fs cgroupList r

/-- `pollMetrics` over the ticks the ticker delivers, oldest first: the loop only ends with
the process, so a finite run is its prefix along a finite list of ticks. -/
def pollMetrics (cfg : Config) : List Tick → Registry → Except Panic Registry
  | [], r => .ok r
  | t :: rest, r =>
    match pollCycle cfg t r with
    | .error p => .error p
    | .ok r1 => pollMetrics cfg rest r1

/-! ## The sink calls of a loop (a log kept beside the loop, for the theorems) -/

/-- One call on a metric sink: `Set` on a series of a gauge vector or `Add` on a series of a
counter vector. -/
inductive Publication where
  | set (gauge : String) (lv : LabelValues) (value : Int)
  | add (counter : String) (lv : LabelValues) (value : Int)
deriving DecidableEq, Repr

/-- The sink call lines 84-88 of `updateMetrics` make for an entry and a value read: `Set` when
the entry has a gauge, else `Add` when it has a counter, else none. -/
def publicationOf (metric : Metric) (c : Sandbox) (value : Int) : Option Publication :=
  match metric.gauge with
  | some g => some (.set g c.labels value)
  | none =>
    match metric.counter with
    | some k => some (.add k c.labels value)
    | none => none

/-- The effect of one sink call on the registry. -/
def Registry.perform (r : Registry) : Publication → Except Panic Registry
  | .set g lv v => .ok (r.gaugeSet g lv v)
  | .add k lv v => r.counterAdd k lv v

/-- What the loop of `updateMetrics` did with one value it read: the entry, the value, and the
sink call made for it, `none` when no call was made. -/
structure Step where
  metric : Metric
  value : Int
  call : Option Publication
deriving DecidableEq, Repr

/-- Whether `readMetricValue` succeeds for an entry. -/
def readSucceeds (fs : HostFS) (cgroup : CGroup) (metric : Metric) : Bool :=
  match readMetricValue fs cgroup metric with
  | .ok _ => true
  | .error _ => false

/-- The loop of `updateMetrics` (`updateLoop`) with a log of its steps kept beside it: one
step per value read, in order, the step of a panicking `Add` being the last. -/
def updateLoopTrace (fs : HostFS) (cgroup : CGroup) (c : Sandbox) :
    List Metric → Registry → List Step × Except Panic Registry
  | [], r => ([], .ok r)
  | metric :: rest, r =>
    match readMetricValue fs cgroup metric with
    | .error _ => updateLoopTrace fs cgroup c rest r
    | .ok value =>
      match publish metric c value r with
      | .error p => ([⟨metric, value, publicationOf metric c value⟩], .error p)
      | .ok r1 =>
        (⟨metric, value, publicationOf metric c value⟩ :: (updateLoopTrace fs cgroup c rest r1).1,
          (updateLoopTrace fs cgroup c rest r1).2)

/-- `updateMetrics` with the log of its steps kept beside it. -/
def updateMetricsTrace (hostPath : String) (fs : HostFS) (c : Sandbox) (r : Registry) :
    List Step × Except Panic Registry :=
  match fs.FindCgroup hostPath c.ID with
  | .error _ => ([], .ok r)
  | .ok cgroup => updateLoopTrace fs cgroup c cgroupMetrics r

/-! ## What a loop writes (specification functions for the theorems) -/

/-- The sample of a counter series after the increments of a list have been added in order,
`old` being the sample before (`none`: no series yet, created at `0` by the first `Add`). -/
def addAll (old : Option Int) : List Int → Option Int
  | [] => old
  | v :: rest => addAll (some (old.getD 0 + v)) rest

/-- The increments the loop of `updateMetrics` passes to `Add` on the counter vector `k`, in
order: the successful reads of the entries that have no gauge and have `k` as counter. -/
def loopCounterAdds (fs : HostFS) (cg : CGroup) (k : String) : List Metric → List Int
  | [] => []
  | m :: rest =>
    match readMetricValue fs cg m with
    | .error _ => loopCounterAdds fs cg k rest
    | .ok v =>
      if m.gauge = none ∧ m.counter = some k then v :: loopCounterAdds fs cg k rest
      else loopCounterAdds fs cg k rest

/-- The value the loop of `updateMetrics` last passes to `Set` on the gauge vector `g`, if
any: the last successful read among the entries that have `g` as gauge. -/
def loopGaugeWrite (fs : HostFS) (cg : CGroup) (g : String) : List Metric → Option Int
  | [] => none
  | m :: rest =>
    match loopGaugeWrite fs cg g rest with
    | some v => some v
    | none =>
      if m.gauge = some g then
        match readMetricValue fs cg m with
        | .ok v => some v
        | .error _ => none
      else none

/-- The value a cycle over a list of sandboxes last passes to `Set` on the series `lv` of the
gauge vector `g`, if any. -/
def cycleGaugeWrite (hostPath : String) (fs : HostFS) (g : String) (lv : LabelValues) :
    List Sandbox → Option Int
  | [] => none
  | c :: rest =>
    match cycleGaugeWrite hostPath fs g lv rest with
    | some v => some v
    | none =>
      if c.labels = lv then
        match fs.FindCgroup hostPath c.ID with
        | .ok cg => loopGaugeWrite fs cg g cgroupMetrics
        | .error _ => none
      else none

/-! ## Stat-file reader and cgroup resolver, from the specification

`main.go` calls `CGroup.ReadInteger`, `CGroup.ReadIntegerField` and `FindCgroup`, which are
defined outside the four embedded files. The definitions of this section follow sections 4.1
and 4.2 of the specification. Text is handled as lists of characters. -/

/-- Modelled from the spec: the value of a decimal digit; part of the missing
`CGroup.ReadIntegerField` ("a base-10 integer"). -/
def digitValue (ch : Char) : Option Nat :=
  if 48 ≤ ch.toNat ∧ ch.toNat ≤ 57 then some (ch.toNat - 48) else none

/-- Modelled from the spec: the number a run of decimal digits denotes, continuing from `acc`;
part of the missing `CGroup.ReadIntegerField`. -/
def parseDigits : List Char → Nat → Option Nat
  | [], acc => some acc
  | ch :: rest, acc =>
    match digitValue ch with
    | none => none
    | some d => parseDigits rest (10 * acc + d)

/-- Modelled from the spec: "a base-10 integer, optionally signed" (4.1): an optional `+` or
`-` followed by at least one decimal digit and nothing else; part of the missing
`CGroup.ReadIntegerField`. -/
def parseInteger (tok : List Char) : Option Int :=
  match tok with
  | [] => none
  | ch :: rest =>
    if ch = '-' then
      (if rest = [] then none else (parseDigits rest 0).map (fun n => -(n : Int)))
    else if ch = '+' then
      (if rest = [] then none else (parseDigits rest 0).map (fun n => (n : Int)))
    else (parseDigits (ch :: rest) 0).map (fun n => (n : Int))

/-- Modelled from the spec: the pieces of a text between the characters satisfying `sep`;
`cur` holds, reversed, the piece being read; part of the missing `CGroup.ReadIntegerField`. -/
def splitRuns (sep : Char → Bool) : List Char → List Char → List (List Char)
  | cur, [] => [cur.reverse]
  | cur, ch :: rest =>
    if sep ch then cur.reverse :: splitRuns sep [] rest else splitRuns sep (ch :: cur) rest

/-- Modelled from the spec: "treats it as a sequence of lines" (4.1); part of the missing
`CGroup.ReadIntegerField`. -/
def fileLines (text : List Char) : List (List Char) :=
  splitRuns (fun ch => decide (ch = '\n')) [] text

/-- Modelled from the spec: blank, tab, carriage return, line feed, vertical tab, form feed;
part of the missing `CGroup.ReadIntegerField`. -/
def isSpace (ch : Char) : Bool :=
  decide (ch = ' ' ∨ (9 ≤ ch.toNat ∧ ch.toNat ≤ 13))

/-- Modelled from the spec: the whitespace-separated tokens of a line (4.1); part of the
missing `CGroup.ReadIntegerField`. -/
def tokens (line : List Char) : List (List Char) :=
  (splitRuns isSpace [] line).filter (fun tok => decide (tok ≠ []))

/-- Modelled from the spec: the key token of a line, its first token (4.1); part of the
missing `CGroup.ReadIntegerField`. -/
def keyOf (line : List Char) : Option (List Char) := (tokens line).head?

/-- Modelled from the spec: the value token of a line, its second token (4.1); part of the
missing `CGroup.ReadIntegerField`. -/
def valueOf (line : List Char) : Option (List Char) := (tokens line).tail.head?

/-- Modelled from the spec: the scan of the missing `CGroup.ReadIntegerField` over the lines
of the file, top to bottom: the first line whose key token is `field` decides, by its value
token; no such line is `FieldNotFound` (4.1). -/
def scanLines (field : List Char) : List (List Char) → Except CgroupError Int
  | [] => .error .fieldNotFound
  | line :: rest =>
    match tokens line with
    | [] => scanLines field rest
    | key :: more =>
      if key = field then
        match more with
        | [] => .error .parseError
        | value :: _ =>
          match parseInteger value with
          | some v => .ok v
          | none => .error .parseError
      else scanLines field rest

/-- Modelled from the spec: `ReadKeyedField(handle, file, field)` of 4.1, the missing
`CGroup.ReadIntegerField`; `content` is what reading `file` under the handle gave, `none` when
the file could not be read. -/
def ReadKeyedField (content : Option String) (field : String) : Except CgroupError Int :=
  match content with
  | none => .error .fileUnreadable
  | some text => scanLines field.data (fileLines text.data)

/-- Modelled from the spec: a text without its leading and trailing whitespace ("the entire
(trimmed) content", 4.1); part of the missing `CGroup.ReadInteger`. -/
def trimSpace (text : List Char) : List Char :=
  ((text.dropWhile isSpace).reverse.dropWhile isSpace).reverse

/-- Modelled from the spec: `ReadScalar(handle, file)` of 4.1, the missing
`CGroup.ReadInteger`; `content` is what reading `file` under the handle gave, `none` when the
file could not be read. -/
def ReadScalar (content : Option String) : Except CgroupError Int :=
  match content with
  | none => .error .fileUnreadable
  | some text =>
    match parseInteger (trimSpace text.data) with
    | some v => .ok v
    | none => .error .parseError

/-- Modelled from the spec: a directory of the cgroup hierarchy the missing `FindCgroup`
traverses (4.2): its name and its subdirectories, in no particular order. Files play no part
in the resolution and symbolic links are not followed, so neither is represented. -/
inductive Dir where
  | mk (name : String) (children : List Dir)

/-- Modelled from the spec: the name of a directory, which the missing `FindCgroup` tests. -/
def Dir.name : Dir → String
  | .mk name _ => name

/-- Modelled from the spec: the order of sibling names, lexicographic by character code;
part of the missing `FindCgroup`. -/
def nameLt : List Char → List Char → Bool
  | _, [] => false
  | [], _ :: _ => true
  | a :: as, b :: bs =>
    if a.toNat < b.toNat then true
    else if b.toNat < a.toNat then false
    else nameLt as bs

/-- Modelled from the spec: insertion of a named item into a list sorted by name; part of the
missing `FindCgroup`. -/
def insertByName {α : Type} (x : String × α) : List (String × α) → List (String × α)
  | [] => [x]
  | y :: ys => if nameLt x.1.data y.1.data then x :: y :: ys else y :: insertByName x ys

/-- Modelled from the spec: named items in lexicographic order of their names ("lexicographic-
sibling order", 4.2); part of the missing `FindCgroup`. -/
def sortByName {α : Type} : List (String × α) → List (String × α)
  | [] => []
  | x :: xs => insertByName x (sortByName xs)

/-- Modelled from the spec: "name equals or contains `sandboxID`" (4.2), the substring test of
the missing `FindCgroup`. -/
def nameContains (name sandboxID : String) : Bool :=
  decide (sandboxID.data <:+: name.data)

/-- Modelled from the spec: the first hit among the search results of siblings, in the order
given; part of the missing `FindCgroup`. -/
def firstFound : List (String × Option String) → Option String
  | [] => none
  | (_, some p) :: _ => some p
  | (_, none) :: rest => firstFound rest

mutual
/-- Modelled from the spec: the depth-first search of the missing `FindCgroup` below
`parent`: a directory whose name contains the ID is the hit; otherwise the hit is that of the
lexicographically first subdirectory that has one (4.2). -/
def searchDir (sandboxID parent : String) : Dir → Option String
  | .mk name children =>
    if nameContains name sandboxID then some (parent ++ "/" ++ name)
    else firstFound (sortByName (searchChildren sandboxID (parent ++ "/" ++ name) children))
/-- Modelled from the spec: the search of each directory of a list, under its name; part of
the missing `FindCgroup`. -/
def searchChildren (sandboxID parent : String) : List Dir → List (String × Option String)
  | [] => []
  | d :: ds => (d.name, searchDir sandboxID parent d) :: searchChildren sandboxID parent ds
end

/-- Modelled from the spec: `Resolve(hostRoot, sandboxID)` of 4.2, the missing `FindCgroup`;
`tree` holds the directories found in `<hostRoot>/sys/fs/cgroup`, where the traversal starts
(the mount point itself is not a candidate). Every directory of `tree` can be listed: a
filesystem failure during the traversal, the other resolution error of section 7, is outside
this model. -/
def Resolve (hostRoot : String) (tree : List Dir) (sandboxID : String) :
    Except CgroupError CGroup :=
  match firstFound (sortByName (searchChildren sandboxID (hostRoot ++ "/sys/fs/cgroup") tree)) with
  | some p => .ok ⟨p⟩
  | none => .error .notFound

mutual
/-- Modelled from the spec: the traversal order of the missing `FindCgroup`: the directories
below `parent` as `(absolute path, name)`, in depth-first order with siblings in lexicographic order (4.2): a directory, then the
enumerations of its subdirectories in the order of their names. -/
def walkDir (parent : String) : Dir → List (String × String)
  | .mk name children =>
    (parent ++ "/" ++ name, name) ::
      ((sortByName (walkChildren (parent ++ "/" ++ name) children)).map Prod.snd).flatten
/-- Modelled from the spec: the enumeration of each directory of a list, under its name; the
traversal order of the missing `FindCgroup`. -/
def walkChildren (parent : String) : List Dir → List (String × List (String × String))
  | [] => []
  | d :: ds => (d.name, walkDir parent d) :: walkChildren parent ds
end

/-- Modelled from the spec: the traversal order of the missing `FindCgroup` over the
directories found in `<hostRoot>/sys/fs/cgroup` (4.2). -/
def walkTree (hostRoot : String) (tree : List Dir) : List (String × String) :=
  ((sortByName (walkChildren (hostRoot ++ "/sys/fs/cgroup") tree)).map Prod.snd).flatten

mutual
/-- Modelled from the spec: a directory and all directories below it, at any depth ("every
subdirectory regardless of nesting depth", 4.2), the candidates of the missing `FindCgroup`. -/
def Dir.subdirs : Dir → List Dir
  | .mk name children => .mk name children :: forestDirs children
/-- Modelled from the spec: all directories of a list of directories, at any depth, the
candidates of the missing `FindCgroup`. -/
def forestDirs : List Dir → List Dir
  | [] => []
  | d :: ds => d.subdirs ++ forestDirs ds
end

/-- Modelled from the spec: the host seen through the missing `FindCgroup`,
`CGroup.ReadInteger` and `CGroup.ReadIntegerField`: `tree` holds the directories found in
`<hostPath>/sys/fs/cgroup` and `files dir name` the content of the file `name` of the
directory `dir`, `none` when it cannot be read. -/
def specHost (tree : List Dir) (files : String → String → Option String) : HostFS where
  FindCgroup := fun hostPath id => Resolve hostPath tree id
  ReadInteger := fun cg file => ReadScalar (files cg.path file)
  ReadIntegerField := fun cg file field => ReadKeyedField (files cg.path file) field

/-! ## Concrete inputs used by the worked examples -/

/-- A host on which every sandbox resolves and the only readable value is the CPU usage total
`cpu.stat:usage_usec`, currently `v`. -/
def usageFS (v : Int) : HostFS where
  FindCgroup := fun hostPath id => .ok ⟨hostPath ++ "/sys/fs/cgroup/" ++ id⟩
  ReadInteger := fun _ _ => .error .fileUnreadable
  ReadIntegerField := fun _ file field =>
    if file = "cpu.stat" ∧ field = "usage_usec" then .ok v else .error .fieldNotFound

/-- A host on which every sandbox but `gone` resolves and the only readable value is
`memory.current`, currently `v`. -/
def memoryFS (v : Int) : HostFS where
  FindCgroup := fun hostPath id =>
    if id = "gone" then .error .notFound else .ok ⟨hostPath ++ "/sys/fs/cgroup/" ++ id⟩
  ReadInteger := fun _ file => if file = "memory.current" then .ok v else .error .fileUnreadable
  ReadIntegerField := fun _ _ _ => .error .fieldNotFound

/-- A container-engine sandbox. -/
def web : Sandbox := ⟨"abc123", "web", "", ""⟩

/-- A sandbox whose cgroup directory has disappeared. -/
def stale : Sandbox := ⟨"gone", "old", "", ""⟩

/-- The content of `memory.stat` in the specification's example. -/
def statText : String := "anon 1000\nfile 2000\nshmem 0\n"

/-- A hierarchy with a container scope of the engine nested under `system.slice` and one of
the runtime service nested under pod slices. -/
def sampleTree : List Dir :=
  [ .mk "system.slice" [.mk "ssh.service" [], .mk "docker-abc123.scope" []],
    .mk "kubepods.slice"
      [.mk "kubepods-burstable.slice" [.mk "podXYZ.slice" [.mk "cri-containerd-def456.scope" []]]] ]

/-- The files of the container scope of `sampleTree`: a memory usage, an unlimited memory
maximum, and the `memory.stat` of the specification's example. -/
def sampleFiles (dir name : String) : Option String :=
  if dir = "/host/sys/fs/cgroup/system.slice/docker-abc123.scope" then
    if name = "memory.current" then some "104857600\n"
    else if name = "memory.max" then some "max\n"
    else if name = "memory.stat" then some statText
    else none
  else none

/-- A decoded `/containers/json` answer: two running containers and an exited one. -/
def engineAnswer : List container :=
  [⟨"abc123", ["/web", "/alias"], "running"⟩, ⟨"dead00", ["/job"], "exited"⟩,
    ⟨"0f0f0f", ["db"], "running"⟩]

/-- A runtime service with one pod sandbox, not ready, under which one container runs. -/
def strayService : RuntimeService where
  NewClient := .ok ()
  ListPodSandbox := .ok [⟨"pod1", some ⟨"web-0", "uid1", "default"⟩, .SANDBOX_NOTREADY⟩]
  ListContainers := fun _ => .ok [⟨"ctr1", some ⟨"app"⟩, .CONTAINER_RUNNING⟩]

/-- A runtime service with one ready pod sandbox holding one running and one exited
container. -/
def readyService : RuntimeService where
  NewClient := .ok ()
  ListPodSandbox := .ok [⟨"pod1", some ⟨"web-0", "uid1", "default"⟩, .SANDBOX_READY⟩]
  ListContainers := fun _ =>
    .ok [⟨"ctr1", some ⟨"app"⟩, .CONTAINER_RUNNING⟩, ⟨"ctr0", some ⟨"init"⟩, .CONTAINER_EXITED⟩]

/-- A runtime service with two ready sandboxes of one pod, `web-0` in `default`, and no
container. -/
def twinService : RuntimeService where
  NewClient := .ok ()
  ListPodSandbox := .ok
    [ ⟨"sbx-a", some ⟨"web-0", "uid1", "default"⟩, .SANDBOX_READY⟩,
      ⟨"sbx-b", some ⟨"web-0", "uid1", "default"⟩, .SANDBOX_READY⟩ ]
  ListContainers := fun _ => .ok []

/-- The entry of the first sandbox of `twinService`. -/
def podA : Sandbox := ⟨"sbx-a", "", "default", "web-0"⟩

/-- The entry of the second sandbox of `twinService`: the labels of `podA`, another cgroup. -/
def podB : Sandbox := ⟨"sbx-b", "", "default", "web-0"⟩

/-- A host on which every sandbox resolves and the only readable value is `memory.current`,
currently `va` in the cgroup of `sbx-a` and `vb` in every other cgroup. -/
def twinFS (va vb : Int) : HostFS where
  FindCgroup := fun hostPath id => .ok ⟨hostPath ++ "/sys/fs/cgroup/" ++ id⟩
  ReadInteger := fun cg file =>
    if file = "memory.current" then
      (if cg.path = "/host/sys/fs/cgroup/sbx-a" then .ok va else .ok vb)
    else .error .fileUnreadable
  ReadIntegerField := fun _ _ _ => .error .fieldNotFound

/-! ## Theorems -/

/-! ### Sinks -/

theorem gaugeSet_gauges_hit (r : Registry) (g : String) (lv : LabelValues) (v : Int) :
    (r.gaugeSet g lv v).gauges g lv = some v := by
  simp [Registry.gaugeSet]

theorem gaugeSet_gauges_miss (r : Registry) (g g1 : String) (lv lv1 : LabelValues) (v : Int)
    (h : g1 ≠ g ∨ lv1 ≠ lv) : (r.gaugeSet g lv v).gauges g1 lv1 = r.gauges g1 lv1 := by
  unfold Registry.gaugeSet
  by_cases hg : g1 = g
  · subst hg
    rcases h with h | h
    · exact absurd rfl h
    · simp [Function.update_noteq h]
  · simp [Function.update_noteq hg]

theorem counterAdd_gauges {r r1 : Registry} {k : String} {lv : LabelValues} {v : Int}
    (h : r.counterAdd k lv v = .ok r1) : r1.gauges = r.gauges := by
  unfold Registry.counterAdd at h
  split at h
  · cases h
  · cases h; rfl

theorem publish_gauges_hit {m : Metric} {c : Sandbox} {v : Int} {r r1 : Registry} {g : String}
    (h : publish m c v r = .ok r1) (hg : m.gauge = some g) :
    r1.gauges g c.labels = some v := by
  unfold publish at h
  rw [hg] at h
  cases h
  exact gaugeSet_gauges_hit r g c.labels v

theorem publish_gauges_miss {m : Metric} {c : Sandbox} {v : Int} {r r1 : Registry} {g : String}
    {lv : LabelValues} (h : publish m c v r = .ok r1) (hmiss : m.gauge ≠ some g ∨ lv ≠ c.labels) :
    r1.gauges g lv = r.gauges g lv := by
  unfold publish at h
  cases hmg : m.gauge with
  | some g0 =>
    rw [hmg] at h
    cases h
    apply gaugeSet_gauges_miss
    rcases hmiss with h1 | h1
    · left
      intro hgg
      exact h1 (by rw [hmg, hgg])
    · right; exact h1
  | none =>
    rw [hmg] at h
    cases hmc : m.counter with
    | some k =>
      rw [hmc] at h
      rw [counterAdd_gauges h]
    | none =>
      rw [hmc] at h
      cases h; rfl

/-! ### The per-sandbox loop -/

theorem updateLoop_cons_error {fs : HostFS} {cg : CGroup} {c : Sandbox} {m : Metric}
    {e : CgroupError} (h : readMetricValue fs cg m = .error e) (rest : List Metric)
    (r : Registry) : updateLoop fs cg c (m :: rest) r = updateLoop fs cg c rest r := by
  simp [updateLoop, h]

theorem updateLoop_cons_ok {fs : HostFS} {cg : CGroup} {c : Sandbox} {m : Metric}
    {v : Int} (h : readMetricValue fs cg m = .ok v) (rest : List Metric)
    (r r2 : Registry) (h2 : updateLoop fs cg c (m :: rest) r = .ok r2) :
    ∃ r1, publish m c v r = .ok r1 ∧ updateLoop fs cg c rest r1 = .ok r2 := by
  simp only [updateLoop, h] at h2
  cases hp : publish m c v r with
  | error p => rw [hp] at h2; cases h2
  | ok r1 => rw [hp] at h2; exact ⟨r1, rfl, h2⟩

/-- After the loop over a catalog has completed, a gauge all of whose entries read `v` holds
`v` for the sandbox's labels, provided the catalog has such an entry (or the series held `v`
already). -/
theorem updateLoop_gauge (fs : HostFS) (cg : CGroup) (c : Sandbox) (g : String) (v : Int) :
    ∀ (catalog : List Metric) (r r2 : Registry),
      updateLoop fs cg c catalog r = .ok r2 →
      (∀ m ∈ catalog, m.gauge = some g → readMetricValue fs cg m = .ok v) →
      (r.gauges g c.labels = some v ∨ ∃ m ∈ catalog, m.gauge = some g) →
      r2.gauges g c.labels = some v := by
  intro catalog
  induction catalog with
  | nil =>
    intro r r2 h _ hor
    simp only [updateLoop] at h
    cases h
    rcases hor with h1 | ⟨m, hm, _⟩
    · exact h1
    · cases hm
  | cons m rest ih =>
    intro r r2 h hall hor
    cases hread : readMetricValue fs cg m with
    | error e =>
      rw [updateLoop_cons_error hread] at h
      have hmg : m.gauge ≠ some g := by
        intro hg
        have := hall m (List.mem_cons_self _ _) hg
        rw [hread] at this
        cases this
      refine ih r r2 h (fun m1 hm1 => hall m1 (List.mem_cons_of_mem _ hm1)) ?_
      rcases hor with h1 | ⟨m1, hm1, hg1⟩
      · exact Or.inl h1
      · rcases List.mem_cons.mp hm1 with heq | hin
        · subst heq; exact absurd hg1 hmg
        · exact Or.inr ⟨m1, hin, hg1⟩
    | ok value =>
      obtain ⟨r1, hp, hrest⟩ := updateLoop_cons_ok hread rest r r2 h
      refine ih r1 r2 hrest (fun m1 hm1 => hall m1 (List.mem_cons_of_mem _ hm1)) ?_
      by_cases hg : m.gauge = some g
      · have hv := hall m (List.mem_cons_self _ _) hg
        rw [hread] at hv
        cases hv
        exact Or.inl (publish_gauges_hit hp hg)
      · rcases hor with h1 | ⟨m1, hm1, hg1⟩
        · left
          rw [publish_gauges_miss hp (Or.inl hg)]
          exact h1
        · rcases List.mem_cons.mp hm1 with heq | hin
          · subst heq; exact absurd hg1 hg
          · exact Or.inr ⟨m1, hin, hg1⟩

/-- The loop for one sandbox leaves the gauge series of every other label set alone. -/
theorem updateLoop_gauge_frame (fs : HostFS) (cg : CGroup) (c : Sandbox) (g : String)
    (lv : LabelValues) (hlv : lv ≠ c.labels) :
    ∀ (catalog : List Metric) (r r2 : Registry),
      updateLoop fs cg c catalog r = .ok r2 → r2.gauges g lv = r.gauges g lv := by
  intro catalog
  induction catalog with
  | nil =>
    intro r r2 h
    simp only [updateLoop] at h
    cases h; rfl
  | cons m rest ih =>
    intro r r2 h
    cases hread : readMetricValue fs cg m with
    | error e =>
      rw [updateLoop_cons_error hread] at h
      exact ih r r2 h
    | ok value =>
      obtain ⟨r1, hp, hrest⟩ := updateLoop_cons_ok hread rest r r2 h
      rw [ih r1 r2 hrest, publish_gauges_miss hp (Or.inr hlv)]

/-! ### The catalog -/

set_option maxRecDepth 100000 in
/-- No two entries of `cgroupMetrics` publish through the same sink. -/
theorem cgroupMetrics_sinks_nodup :
    (cgroupMetrics.map (fun m => (m.gauge, m.counter))).Nodup := by
  decide

/-- Two entries of `cgroupMetrics` with the same gauge are the same entry. -/
theorem cgroupMetrics_gauge_unique {m m1 : Metric} (hm : m ∈ cgroupMetrics)
    (hm1 : m1 ∈ cgroupMetrics) (hk : m.counter = none) (hk1 : m1.counter = none)
    (hg : m1.gauge = m.gauge) : m1 = m := by
  have hinj := List.inj_on_of_nodup_map cgroupMetrics_sinks_nodup hm1 hm
  apply hinj
  simp [hg, hk, hk1]

set_option maxRecDepth 100000 in
/-- Every entry of `cgroupMetrics` that has a gauge has no counter. -/
theorem cgroupMetrics_gauge_counter :
    ∀ m ∈ cgroupMetrics, m.gauge ≠ none → m.counter = none := by
  decide

/-! ### One sandbox, all sandboxes -/

theorem updateMetricsOver_unresolved {catalog : List Metric} {hostPath : String} {fs : HostFS}
    {c : Sandbox} {e : CgroupError} (h : fs.FindCgroup hostPath c.ID = .error e) (r : Registry) :
    updateMetricsOver catalog hostPath fs c r = .ok r := by
  simp [updateMetricsOver, h]

theorem updateMetricsOver_resolved {catalog : List Metric} {hostPath : String} {fs : HostFS}
    {c : Sandbox} {cg : CGroup} (h : fs.FindCgroup hostPath c.ID = .ok cg) (r : Registry) :
    updateMetricsOver catalog hostPath fs c r = updateLoop fs cg c catalog r := by
  simp [updateMetricsOver, h]

theorem updateAll_cons_ok {hostPath : String} {fs : HostFS} {c : Sandbox} {rest : List Sandbox}
    {r r2 : Registry} (h : updateAll hostPath fs (c :: rest) r = .ok r2) :
    ∃ r1, updateMetrics hostPath fs c r = .ok r1 ∧ updateAll hostPath fs rest r1 = .ok r2 := by
  simp only [updateAll] at h
  cases hu : updateMetrics hostPath fs c r with
  | error p => rw [hu] at h; cases h
  | ok r1 => rw [hu] at h; exact ⟨r1, rfl, h⟩

/-- Sandboxes for which `updateMetrics` changes nothing can be dropped from the list. -/
theorem updateAll_filter (hostPath : String) (fs : HostFS) (keep : Sandbox → Bool)
    (hskip : ∀ c, keep c = false → ∀ r, updateMetrics hostPath fs c r = .ok r) :
    ∀ (l : List Sandbox) (r : Registry),
      updateAll hostPath fs l r = updateAll hostPath fs (l.filter keep) r := by
  intro l
  induction l with
  | nil => intro r; rfl
  | cons c rest ih =>
    intro r
    cases hk : keep c with
    | false =>
      rw [List.filter_cons_of_neg (by simp [hk])]
      simp only [updateAll, hskip c hk r]
      exact ih r
    | true =>
      rw [List.filter_cons_of_pos (by simp [hk])]
      simp only [updateAll]
      cases updateMetrics hostPath fs c r with
      | error p => rfl
      | ok r1 => exact ih r1

/-- Catalog entries whose read fails can be dropped from the catalog. -/
theorem updateLoop_filter (fs : HostFS) (cg : CGroup) (c : Sandbox) (keep : Metric → Bool)
    (hskip : ∀ m, keep m = false → ∃ e, readMetricValue fs cg m = .error e) :
    ∀ (catalog : List Metric) (r : Registry),
      updateLoop fs cg c catalog r = updateLoop fs cg c (catalog.filter keep) r := by
  intro catalog
  induction catalog with
  | nil => intro r; rfl
  | cons m rest ih =>
    intro r
    cases hk : keep m with
    | false =>
      obtain ⟨e, he⟩ := hskip m hk
      rw [List.filter_cons_of_neg (by simp [hk]), updateLoop_cons_error he]
      exact ih r
    | true =>
      rw [List.filter_cons_of_pos (by simp [hk])]
      simp only [updateLoop]
      cases readMetricValue fs cg m with
      | error e => exact ih r
      | ok value =>
        dsimp only
        cases publish m c value r with
        | error p => rfl
        | ok r1 => exact ih r1

/-- After the loop over all sandboxes has completed, a gauge series holds `v` when some
sandbox of the list with these labels resolves and every such sandbox reads `v` for every
catalog entry of the gauge. -/
theorem updateAll_gauge (hostPath : String) (fs : HostFS) (g : String) (lv : LabelValues)
    (v : Int) :
    ∀ (l : List Sandbox) (r r2 : Registry),
      updateAll hostPath fs l r = .ok r2 →
      (∀ c ∈ l, c.labels = lv → ∀ cg, fs.FindCgroup hostPath c.ID = .ok cg →
        ∀ m ∈ cgroupMetrics, m.gauge = some g → readMetricValue fs cg m = .ok v) →
      (r.gauges g lv = some v ∨
        ∃ c ∈ l, c.labels = lv ∧ (∃ cg, fs.FindCgroup hostPath c.ID = .ok cg) ∧
          ∃ m ∈ cgroupMetrics, m.gauge = some g) →
      r2.gauges g lv = some v := by
  intro l
  induction l with
  | nil =>
    intro r r2 h _ hor
    simp only [updateAll] at h
    cases h
    rcases hor with h1 | ⟨c, hc, _⟩
    · exact h1
    · cases hc
  | cons c rest ih =>
    intro r r2 h hall hor
    obtain ⟨r1, hu, hrest⟩ := updateAll_cons_ok h
    refine ih r1 r2 hrest (fun c1 hc1 => hall c1 (List.mem_cons_of_mem _ hc1)) ?_
    unfold updateMetrics at hu
    cases hfind : fs.FindCgroup hostPath c.ID with
    | error e =>
      rw [updateMetricsOver_unresolved hfind] at hu
      cases hu
      rcases hor with h1 | ⟨c1, hc1, hl1, ⟨cg1, hcg1⟩, hm1⟩
      · exact Or.inl h1
      · rcases List.mem_cons.mp hc1 with heq | hin
        · subst heq
          rw [hfind] at hcg1
          cases hcg1
        · exact Or.inr ⟨c1, hin, hl1, ⟨cg1, hcg1⟩, hm1⟩
    | ok cg =>
      rw [updateMetricsOver_resolved hfind] at hu
      by_cases hlv : c.labels = lv
      · subst hlv
        by_cases hex : ∃ m ∈ cgroupMetrics, m.gauge = some g
        · left
          exact updateLoop_gauge fs cg c g v cgroupMetrics r r1 hu
            (hall c (List.mem_cons_self _ _) rfl cg hfind) (Or.inr hex)
        · rcases hor with h1 | ⟨_, _, _, _, hm1⟩
          · left
            exact updateLoop_gauge fs cg c g v cgroupMetrics r r1 hu
              (hall c (List.mem_cons_self _ _) rfl cg hfind) (Or.inl h1)
          · exact absurd hm1 hex
      · rcases hor with h1 | ⟨c1, hc1, hl1, hcg1, hm1⟩
        · left
          rw [updateLoop_gauge_frame fs cg c g lv (fun h => hlv h.symm) cgroupMetrics r r1 hu]
          exact h1
        · rcases List.mem_cons.mp hc1 with heq | hin
          · subst heq; exact absurd hl1 hlv
          · exact Or.inr ⟨c1, hin, hl1, hcg1, hm1⟩

/-- A cycle whose discovery returned the list `l` runs `updateMetrics` over `l`. -/
theorem pollCycle_eq_updateAll {cfg : Config} {t : Tick} {l : List Sandbox}
    (h : getCgroupList cfg.mode t = .ok (.ok l)) (r : Registry) :
    pollCycle cfg t r = updateAll cfg.hostPath t.fs l r := by
  unfold pollCycle
  rw [h]
  by_cases hl : l = []
  · subst hl; simp [updateAll]
  · simp [hl]

/-- In a completed `updateMetrics` every gauge entry of the catalog whose read succeeded holds
the value read. -/
theorem updateMetrics_gauge {hostPath : String} {fs : HostFS} {c : Sandbox} {cg : CGroup}
    {r r2 : Registry} {m : Metric} {g : String} {v : Int}
    (hfind : fs.FindCgroup hostPath c.ID = .ok cg) (hm : m ∈ cgroupMetrics)
    (hg : m.gauge = some g) (hread : readMetricValue fs cg m = .ok v)
    (h : updateMetrics hostPath fs c r = .ok r2) : r2.gauges g c.labels = some v := by
  unfold updateMetrics at h
  rw [updateMetricsOver_resolved hfind] at h
  refine updateLoop_gauge fs cg c g v cgroupMetrics r r2 h ?_ (Or.inr ⟨m, hm, hg⟩)
  intro m1 hm1 hg1
  have hk : m.counter = none := cgroupMetrics_gauge_counter m hm (by simp [hg])
  have hk1 : m1.counter = none := cgroupMetrics_gauge_counter m1 hm1 (by simp [hg1])
  have : m1 = m := cgroupMetrics_gauge_unique hm hm1 hk hk1 (by rw [hg1, hg])
  rw [this]; exact hread

/-- In a completed cycle over `l`, a gauge entry read as `v` for a sandbox `c` of `l` that
resolves holds `v` under the labels of `c`, when every sandbox of `l` with these labels either
is the same cgroup or does not resolve. -/
theorem updateAll_gauge_of_mem {hostPath : String} {fs : HostFS} {l : List Sandbox}
    {c : Sandbox} {cg : CGroup} {r r2 : Registry} {m : Metric} {g : String} {v : Int}
    (hc : c ∈ l) (hfind : fs.FindCgroup hostPath c.ID = .ok cg) (hm : m ∈ cgroupMetrics)
    (hg : m.gauge = some g) (hread : readMetricValue fs cg m = .ok v)
    (hlabels : ∀ c1 ∈ l, c1.labels = c.labels →
      c1.ID = c.ID ∨ ∃ e, fs.FindCgroup hostPath c1.ID = .error e)
    (h : updateAll hostPath fs l r = .ok r2) : r2.gauges g c.labels = some v := by
  refine updateAll_gauge hostPath fs g c.labels v l r r2 h ?_
    (Or.inr ⟨c, hc, rfl, ⟨cg, hfind⟩, m, hm, hg⟩)
  intro c1 hc1 hl1 cg1 hfind1 m1 hm1 hg1
  have hk : m.counter = none := cgroupMetrics_gauge_counter m hm (by simp [hg])
  have hk1 : m1.counter = none := cgroupMetrics_gauge_counter m1 hm1 (by simp [hg1])
  have hmm : m1 = m := cgroupMetrics_gauge_unique hm hm1 hk hk1 (by rw [hg1, hg])
  rcases hlabels c1 hc1 hl1 with hid | ⟨e, he⟩
  · rw [hid, hfind] at hfind1
    cases hfind1
    rw [hmm]; exact hread
  · rw [he] at hfind1
    cases hfind1

/-! ### Completion -/

theorem publish_completes (m : Metric) (c : Sandbox) (v : Int) (r : Registry)
    (h : m.gauge = none → 0 ≤ v) : ∃ r1, publish m c v r = .ok r1 := by
  unfold publish
  cases hg : m.gauge with
  | some g => exact ⟨_, rfl⟩
  | none =>
    cases hk : m.counter with
    | none => exact ⟨_, rfl⟩
    | some k =>
      have hv : ¬ v < 0 := not_lt.mpr (h hg)
      simp only [Registry.counterAdd, if_neg hv]
      exact ⟨_, rfl⟩

/-- The loop of `updateMetrics` runs to completion when no value read for an entry without
gauge is negative. -/
theorem updateLoop_completes (fs : HostFS) (cg : CGroup) (c : Sandbox) :
    ∀ (catalog : List Metric) (r : Registry),
      (∀ m ∈ catalog, ∀ v, readMetricValue fs cg m = .ok v → m.gauge = none → 0 ≤ v) →
      ∃ r2, updateLoop fs cg c catalog r = .ok r2 := by
  intro catalog
  induction catalog with
  | nil => intro r _; exact ⟨r, rfl⟩
  | cons m rest ih =>
    intro r hall
    have hrest : ∀ m1 ∈ rest, ∀ v, readMetricValue fs cg m1 = .ok v → m1.gauge = none → 0 ≤ v :=
      fun m1 h1 => hall m1 (List.mem_cons_of_mem _ h1)
    cases hread : readMetricValue fs cg m with
    | error e =>
      rw [updateLoop_cons_error hread]
      exact ih r hrest
    | ok v =>
      obtain ⟨r1, hp⟩ := publish_completes m c v r (hall m (List.mem_cons_self _ _) v hread)
      simp only [updateLoop, hread, hp]
      exact ih r1 hrest

/-- A cycle runs to completion when no value read for a catalog entry without gauge (a
counter entry) is negative. -/
theorem updateAll_completes (hostPath : String) (fs : HostFS) :
    ∀ (l : List Sandbox) (r : Registry),
      (∀ c ∈ l, ∀ cg, fs.FindCgroup hostPath c.ID = .ok cg → ∀ m ∈ cgroupMetrics,
        ∀ v, readMetricValue fs cg m = .ok v → m.gauge = none → 0 ≤ v) →
      ∃ r2, updateAll hostPath fs l r = .ok r2 := by
  intro l
  induction l with
  | nil => intro r _; exact ⟨r, rfl⟩
  | cons c rest ih =>
    intro r hall
    have hrest := fun c1 (h1 : c1 ∈ rest) => hall c1 (List.mem_cons_of_mem _ h1)
    have hstep : ∃ r1, updateMetrics hostPath fs c r = .ok r1 := by
      unfold updateMetrics
      cases hfind : fs.FindCgroup hostPath c.ID with
      | error e => exact ⟨r, updateMetricsOver_unresolved hfind r⟩
      | ok cg =>
        rw [updateMetricsOver_resolved hfind]
        exact updateLoop_completes fs cg c cgroupMetrics r
          (hall c (List.mem_cons_self _ _) cg hfind)
    obtain ⟨r1, h1⟩ := hstep
    simp only [updateAll, h1]
    exact ih r1 hrest

/-! ### What the counters hold -/

theorem addAll_append (old : Option Int) (xs ys : List Int) :
    addAll old (xs ++ ys) = addAll (addAll old xs) ys := by
  induction xs generalizing old with
  | nil => rfl
  | cons x rest ih =>
    rw [List.cons_append, addAll, addAll]
    exact ih _

theorem counterAdd_counters_hit {r r1 : Registry} {k : String} {lv : LabelValues} {v : Int}
    (h : r.counterAdd k lv v = .ok r1) :
    r1.counters k lv = some ((r.counters k lv).getD 0 + v) := by
  unfold Registry.counterAdd at h
  split at h
  · cases h
  · cases h; simp

theorem counterAdd_counters_miss {r r1 : Registry} {k k1 : String} {lv lv1 : LabelValues}
    {v : Int} (h : r.counterAdd k lv v = .ok r1) (hmiss : k1 ≠ k ∨ lv1 ≠ lv) :
    r1.counters k1 lv1 = r.counters k1 lv1 := by
  unfold Registry.counterAdd at h
  split at h
  · cases h
  · cases h
    by_cases hk : k1 = k
    · subst hk
      rcases hmiss with h1 | h1
      · exact absurd rfl h1
      · simp [Function.update_noteq h1]
    · simp [Function.update_noteq hk]

/-- What one publication does to a counter series: the value is added when the entry has no
gauge, has this counter, and the labels are the sandbox's; otherwise the series is left
alone. -/
theorem publish_counters {m : Metric} {c : Sandbox} {v : Int} {r r1 : Registry}
    (h : publish m c v r = .ok r1) (k : String) (lv : LabelValues) :
    r1.counters k lv =
      if m.gauge = none ∧ m.counter = some k ∧ lv = c.labels then
        some ((r.counters k lv).getD 0 + v)
      else r.counters k lv := by
  unfold publish at h
  cases hg : m.gauge with
  | some g =>
    rw [hg] at h
    cases h
    simp [Registry.gaugeSet]
  | none =>
    rw [hg] at h
    cases hk : m.counter with
    | none =>
      rw [hk] at h
      cases h
      simp
    | some k0 =>
      rw [hk] at h
      dsimp only at h
      by_cases hhit : k0 = k ∧ lv = c.labels
      · obtain ⟨hk0, hlv⟩ := hhit
        subst hk0; subst hlv
        simp [counterAdd_counters_hit h]
      · have hmiss : k ≠ k0 ∨ lv ≠ c.labels := by
          by_cases hkk : k = k0
          · right
            intro hlv
            exact hhit ⟨hkk.symm, hlv⟩
          · exact Or.inl hkk
        rw [counterAdd_counters_miss h hmiss]
        simp [hhit]

/-- After the loop of `updateMetrics` has completed, a counter series of the sandbox's labels
holds what it held before plus every increment of the loop; other label sets are left
alone. -/
theorem updateLoop_counters (fs : HostFS) (cg : CGroup) (c : Sandbox) (k : String)
    (lv : LabelValues) :
    ∀ (catalog : List Metric) (r r2 : Registry),
      updateLoop fs cg c catalog r = .ok r2 →
      r2.counters k lv =
        if lv = c.labels then addAll (r.counters k lv) (loopCounterAdds fs cg k catalog)
        else r.counters k lv := by
  intro catalog
  induction catalog with
  | nil =>
    intro r r2 h
    simp only [updateLoop] at h
    cases h
    simp [loopCounterAdds, addAll]
  | cons m rest ih =>
    intro r r2 h
    cases hread : readMetricValue fs cg m with
    | error e =>
      rw [updateLoop_cons_error hread] at h
      rw [ih r r2 h]
      simp [loopCounterAdds, hread]
    | ok v =>
      obtain ⟨r1, hp, hrest⟩ := updateLoop_cons_ok hread rest r r2 h
      rw [ih r1 r2 hrest, publish_counters hp k lv]
      by_cases hlv : lv = c.labels
      · by_cases hm : m.gauge = none ∧ m.counter = some k
        · simp [loopCounterAdds, hread, hlv, hm, addAll]
        · have hm1 : ¬ (m.gauge = none ∧ m.counter = some k ∧ c.labels = c.labels) :=
            fun h3 => hm ⟨h3.1, h3.2.1⟩
          simp [loopCounterAdds, hread, hlv, hm, hm1]
      · simp [hlv]

theorem loopCounterAdds_nil_of_no_entry (fs : HostFS) (cg : CGroup) (k : String) :
    ∀ catalog : List Metric, (∀ m ∈ catalog, ¬ (m.gauge = none ∧ m.counter = some k)) →
      loopCounterAdds fs cg k catalog = [] := by
  intro catalog
  induction catalog with
  | nil => intro _; rfl
  | cons m rest ih =>
    intro hall
    have hm := hall m (List.mem_cons_self _ _)
    have hrest := ih (fun m1 h1 => hall m1 (List.mem_cons_of_mem _ h1))
    cases hread : readMetricValue fs cg m <;> simp [loopCounterAdds, hread, hm, hrest]

/-- In a catalog no two entries of which share a sink, the loop adds to a counter exactly the
one value read for its entry. -/
theorem loopCounterAdds_single (fs : HostFS) (cg : CGroup) (k : String) (m : Metric) (v : Int)
    (hg : m.gauge = none) (hk : m.counter = some k) (hread : readMetricValue fs cg m = .ok v) :
    ∀ catalog : List Metric, (catalog.map (fun m1 => (m1.gauge, m1.counter))).Nodup →
      m ∈ catalog → loopCounterAdds fs cg k catalog = [v] := by
  intro catalog
  induction catalog with
  | nil => intro _ hm; cases hm
  | cons m0 rest ih =>
    intro hnodup hm
    rw [List.map_cons, List.nodup_cons] at hnodup
    obtain ⟨hnot, hrestnodup⟩ := hnodup
    by_cases hm0 : m0.gauge = none ∧ m0.counter = some k
    · have hsame : (m0.gauge, m0.counter) = (m.gauge, m.counter) := by
        rw [hm0.1, hm0.2, hg, hk]
      have hmm : m = m0 := by
        rcases List.mem_cons.mp hm with heq | hin
        · exact heq
        · exfalso
          apply hnot
          rw [hsame]
          exact List.mem_map.mpr ⟨m, hin, rfl⟩
      subst hmm
      have hnone : loopCounterAdds fs cg k rest = [] := by
        apply loopCounterAdds_nil_of_no_entry
        intro m1 hm1 hmatch
        apply hnot
        have : (m1.gauge, m1.counter) = (m.gauge, m.counter) := by
          rw [hmatch.1, hmatch.2, hg, hk]
        rw [← this]
        exact List.mem_map.mpr ⟨m1, hm1, rfl⟩
      simp [loopCounterAdds, hread, hm0, hnone]
    · have hin : m ∈ rest := by
        rcases List.mem_cons.mp hm with heq | hin
        · subst heq
          exact absurd ⟨hg, hk⟩ hm0
        · exact hin
      have hrest := ih hrestnodup hin
      cases hread0 : readMetricValue fs cg m0 <;> simp [loopCounterAdds, hread0, hm0, hrest]

/-- What `updateMetrics` does to a counter: in a completed `updateMetrics`, the series of a
counter entry of `cgroupMetrics` read as `v` holds the sample it held before (`0` when it did
not exist) plus `v`. -/
theorem updateMetrics_counter {hostPath : String} {fs : HostFS} {c : Sandbox} {cg : CGroup}
    {r r2 : Registry} {m : Metric} {k : String} {v : Int}
    (hfind : fs.FindCgroup hostPath c.ID = .ok cg) (hm : m ∈ cgroupMetrics)
    (hg : m.gauge = none) (hk : m.counter = some k) (hread : readMetricValue fs cg m = .ok v)
    (h : updateMetrics hostPath fs c r = .ok r2) :
    r2.counters k c.labels = some ((r.counters k c.labels).getD 0 + v) := by
  unfold updateMetrics at h
  rw [updateMetricsOver_resolved hfind] at h
  rw [updateLoop_counters fs cg c k c.labels cgroupMetrics r r2 h, if_pos rfl,
    loopCounterAdds_single fs cg k m v hg hk hread cgroupMetrics cgroupMetrics_sinks_nodup hm]
  rfl

/-! ### What the gauges hold -/

/-- What one publication does to a gauge series. -/
theorem publish_gauges {m : Metric} {c : Sandbox} {v : Int} {r r1 : Registry}
    (h : publish m c v r = .ok r1) (g : String) (lv : LabelValues) :
    r1.gauges g lv = if m.gauge = some g ∧ lv = c.labels then some v else r.gauges g lv := by
  by_cases hhit : m.gauge = some g ∧ lv = c.labels
  · rw [if_pos hhit, hhit.2]
    exact publish_gauges_hit h hhit.1
  · rw [if_neg hhit]
    apply publish_gauges_miss h
    by_cases hg : m.gauge = some g
    · exact Or.inr (fun hlv => hhit ⟨hg, hlv⟩)
    · exact Or.inl hg

/-- After the loop of `updateMetrics` has completed, a gauge series of the sandbox's labels
holds the last value the loop set it to, or what it held before when the loop set none. -/
theorem updateLoop_gauges (fs : HostFS) (cg : CGroup) (c : Sandbox) (g : String) :
    ∀ (catalog : List Metric) (r r2 : Registry),
      updateLoop fs cg c catalog r = .ok r2 →
      r2.gauges g c.labels = (loopGaugeWrite fs cg g catalog).or (r.gauges g c.labels) := by
  intro catalog
  induction catalog with
  | nil =>
    intro r r2 h
    simp only [updateLoop] at h
    cases h
    simp [loopGaugeWrite, Option.or]
  | cons m rest ih =>
    intro r r2 h
    cases hread : readMetricValue fs cg m with
    | error e =>
      rw [updateLoop_cons_error hread] at h
      rw [ih r r2 h]
      cases hw : loopGaugeWrite fs cg g rest <;> simp [loopGaugeWrite, hw, hread, Option.or]
    | ok v =>
      obtain ⟨r1, hp, hrest⟩ := updateLoop_cons_ok hread rest r r2 h
      rw [ih r1 r2 hrest, publish_gauges hp g c.labels]
      cases hw : loopGaugeWrite fs cg g rest with
      | some w => simp [loopGaugeWrite, hw, Option.or]
      | none =>
        by_cases hg : m.gauge = some g <;> simp [loopGaugeWrite, hw, hread, hg, Option.or]

/-- After a cycle has completed, a gauge series holds the last value the cycle set it to, or
what it held before when the cycle set none. -/
theorem updateAll_gauges (hostPath : String) (fs : HostFS) (g : String) (lv : LabelValues) :
    ∀ (l : List Sandbox) (r r2 : Registry),
      updateAll hostPath fs l r = .ok r2 →
      r2.gauges g lv = (cycleGaugeWrite hostPath fs g lv l).or (r.gauges g lv) := by
  intro l
  induction l with
  | nil =>
    intro r r2 h
    simp only [updateAll] at h
    cases h
    simp [cycleGaugeWrite, Option.or]
  | cons c rest ih =>
    intro r r2 h
    obtain ⟨r1, hu, hrest⟩ := updateAll_cons_ok h
    rw [ih r1 r2 hrest]
    have hstep : r1.gauges g lv =
        (if c.labels = lv then
          match fs.FindCgroup hostPath c.ID with
          | .ok cg => loopGaugeWrite fs cg g cgroupMetrics
          | .error _ => none
        else none).or (r.gauges g lv) := by
      unfold updateMetrics at hu
      cases hfind : fs.FindCgroup hostPath c.ID with
      | error e =>
        rw [updateMetricsOver_unresolved hfind] at hu
        cases hu
        by_cases hlv : c.labels = lv <;> simp [hlv, Option.or]
      | ok cg =>
        rw [updateMetricsOver_resolved hfind] at hu
        by_cases hlv : c.labels = lv
        · subst hlv
          rw [updateLoop_gauges fs cg c g cgroupMetrics r r1 hu]
          simp
        · rw [updateLoop_gauge_frame fs cg c g lv (fun h1 => hlv h1.symm) cgroupMetrics r r1 hu]
          simp [hlv, Option.or]
    rw [hstep]
    cases hw : cycleGaugeWrite hostPath fs g lv rest with
    | some w => simp [cycleGaugeWrite, hw, Option.or]
    | none =>
      simp only [cycleGaugeWrite, hw]
      simp [Option.or]

/-- Re-running a completed cycle on the same list and filesystem leaves every gauge series as
the first run left it. -/
theorem updateAll_gauges_rerun (hostPath : String) (fs : HostFS) (l : List Sandbox)
    (r r1 r2 : Registry) (h1 : updateAll hostPath fs l r = .ok r1)
    (h2 : updateAll hostPath fs l r1 = .ok r2) : r2.gauges = r1.gauges := by
  funext g lv
  rw [updateAll_gauges hostPath fs g lv l r1 r2 h2, updateAll_gauges hostPath fs g lv l r r1 h1]
  cases cycleGaugeWrite hostPath fs g lv l <;> simp [Option.or]

/-! ### The claims -/

set_option maxRecDepth 100000 in
/-- C1 (the code departs from the claim). The claim: after `updateMetrics` a counter series
holds exactly the value just read, whatever it held before. The code: with the CPU usage
total read as `5` in one cycle and as `7` in the next, the series
`cgroup_cpu_usage_usec{container="web"}` holds `5` and then `12`, the sum of the readings,
because line 87 calls `Add` with the kernel's cumulative total. -/
theorem counter_series_sums_readings :
    ∃ r1 r2, updateMetrics "/host" (usageFS 5) web Registry.empty = .ok r1 ∧
      updateMetrics "/host" (usageFS 7) web r1 = .ok r2 ∧
      r1.counters "cgroup_cpu_usage_usec" web.labels = some 5 ∧
      r2.counters "cgroup_cpu_usage_usec" web.labels = some 12 ∧
      r2.counters "cgroup_cpu_usage_usec" web.labels ≠ some 7 := by
  refine ⟨_, _, rfl, rfl, ?_, ?_, ?_⟩ <;> decide

set_option maxRecDepth 100000 in
/-- C2 (the code departs from the claim). The claim: running the body of a poll cycle twice
on an unchanged sandbox list and filesystem leaves every series as one run does. The code:
with the list `[web]` and the CPU usage total unchanged at `5`, the counter series holds `5`
after one run and `10` after two. -/
theorem cycle_rerun_changes_counter :
    ∃ r1 r2, updateAll "/host" (usageFS 5) [web] Registry.empty = .ok r1 ∧
      updateAll "/host" (usageFS 5) [web] r1 = .ok r2 ∧
      r1.counters "cgroup_cpu_usage_usec" web.labels = some 5 ∧
      r2.counters "cgroup_cpu_usage_usec" web.labels = some 10 := by
  refine ⟨_, _, rfl, rfl, ?_, ?_⟩ <;> decide

set_option maxRecDepth 100000 in
/-- C3 as stated fails. `podA` and `podB` are the two entries `listKubernetesPods` returns
for `twinService`; they carry the same labels and resolve to different cgroups. Two
successive cycles over `[podA, podB]` read `memory.current` as `100` and then as `111` for
`podA`, yet after the second cycle the gauge series labelled as `podA` holds `222`, the value
read for `podB`, which the same cycle published later under the same labels. -/
theorem gauge_of_shared_labels_holds_other_reading :
    listKubernetesPods twinService = .ok (.ok [podA, podB]) ∧
    podA.labels = podB.labels ∧
    (twinFS 100 200).FindCgroup "/host" podA.ID = .ok ⟨"/host/sys/fs/cgroup/sbx-a"⟩ ∧
    readMetricValue (twinFS 100 200) ⟨"/host/sys/fs/cgroup/sbx-a"⟩
      (gaugeMetric "cgroup_memory_current_bytes" "memory.current" "") = .ok 100 ∧
    (twinFS 111 222).FindCgroup "/host" podA.ID = .ok ⟨"/host/sys/fs/cgroup/sbx-a"⟩ ∧
    readMetricValue (twinFS 111 222) ⟨"/host/sys/fs/cgroup/sbx-a"⟩
      (gaugeMetric "cgroup_memory_current_bytes" "memory.current" "") = .ok 111 ∧
    ∃ r1 r2, updateAll "/host" (twinFS 100 200) [podA, podB] Registry.empty = .ok r1 ∧
      updateAll "/host" (twinFS 111 222) [podA, podB] r1 = .ok r2 ∧
      r2.gauges "cgroup_memory_current_bytes" podA.labels = some 222 ∧
      r2.gauges "cgroup_memory_current_bytes" podA.labels ≠ some 111 := by
  refine ⟨rfl, rfl, rfl, rfl, rfl, rfl, _, _, rfl, rfl, ?_, ?_⟩ <;> decide

/-- C3, amended. For every gauge entry `m` of `cgroupMetrics` and every sandbox `c` of the
list of a cycle: if the cycle reads `v2` for them, and every sandbox of the list that carries
the labels of `c` has the ID of `c` or does not resolve, then after the cycle has run to
completion the gauge series labelled `(container, namespace, pod)` of `c` holds `v2`,
whatever registry `r1` the previous cycle left: whatever value `v1` that cycle read and
whatever the series held before (overwrite, not accumulation). -/
theorem gauge_holds_second_reading (hostPath : String) (fs2 : HostFS) (l2 : List Sandbox)
    (r1 r2 : Registry) (c : Sandbox) (m : Metric) (g : String) (cg2 : CGroup) (v2 : Int)
    (hm : m ∈ cgroupMetrics) (hg : m.gauge = some g) (hc2 : c ∈ l2)
    (hfind2 : fs2.FindCgroup hostPath c.ID = .ok cg2)
    (hread2 : readMetricValue fs2 cg2 m = .ok v2)
    (hlabels2 : ∀ c1 ∈ l2, c1.labels = c.labels →
      c1.ID = c.ID ∨ ∃ e, fs2.FindCgroup hostPath c1.ID = .error e)
    (hcycle2 : updateAll hostPath fs2 l2 r1 = .ok r2) :
    r2.gauges g c.labels = some v2 :=
  updateAll_gauge_of_mem hc2 hfind2 hm hg hread2 hlabels2 hcycle2

set_option maxRecDepth 100000 in
/-- C3, amended, at a concrete input: `memory.current` read as `100` in a first cycle and as
`250` in the next for `web`; `stale`, in the second list too, does not resolve. -/
theorem gauge_holds_second_reading_witness :
    ∃ r1 r2, updateAll "/host" (memoryFS 100) [stale, web] Registry.empty = .ok r1 ∧
      updateAll "/host" (memoryFS 250) [web, stale] r1 = .ok r2 ∧
      r1.gauges "cgroup_memory_current_bytes" web.labels = some 100 ∧
      r2.gauges "cgroup_memory_current_bytes" web.labels = some 250 := by
  have h : ∃ r1 r2, updateAll "/host" (memoryFS 100) [stale, web] Registry.empty = .ok r1 ∧
      updateAll "/host" (memoryFS 250) [web, stale] r1 = .ok r2 ∧
      r1.gauges "cgroup_memory_current_bytes" web.labels = some 100 :=
    ⟨_, _, rfl, rfl, by decide⟩
  obtain ⟨r1, r2, h1, h2, hfirst⟩ := h
  have hlabels : ∀ c1 ∈ [web, stale], c1.labels = web.labels →
      c1.ID = web.ID ∨ ∃ e, (memoryFS 250).FindCgroup "/host" c1.ID = .error e := by
    intro c1 hc1 _
    rcases List.mem_cons.mp hc1 with hw | hs
    · exact Or.inl (by rw [hw])
    · rw [List.mem_singleton.mp hs]
      exact Or.inr ⟨.notFound, rfl⟩
  have key := gauge_holds_second_reading "/host" (memoryFS 250) [web, stale] r1 r2 web
    (gaugeMetric "cgroup_memory_current_bytes" "memory.current" "")
    "cgroup_memory_current_bytes" ⟨"/host/sys/fs/cgroup/abc123"⟩ 250
    (by decide) rfl (by decide) rfl rfl hlabels h2
  exact ⟨r1, r2, h1, h2, hfirst, key⟩

/-- C4. When `FindCgroup` fails for a sandbox `s`, `updateMetrics` for `s` publishes nothing
(the registry is returned as it was), one cycle over a list `l` ends exactly as the cycle over
`l` with `s` removed does (as the loop over the list, and as the poll cycle whose discovery
returned `l`), and in the completed cycle every other sandbox `c` of `l` whose
cgroup resolves has each gauge entry it read set to the value read (a series belongs to `c`
when the sandboxes of `l` carrying the same labels are `c` itself or `s`). -/
theorem unresolved_sandbox_isolated (hostPath : String) (fs : HostFS) (l : List Sandbox)
    (s : Sandbox) (e : CgroupError) (hfail : fs.FindCgroup hostPath s.ID = .error e)
    (r : Registry) :
    (∀ r0, updateMetrics hostPath fs s r0 = .ok r0) ∧
    updateAll hostPath fs l r = updateAll hostPath fs (l.filter (fun c => decide (c ≠ s))) r ∧
    (∀ mode t, t.fs = fs → getCgroupList mode t = .ok (.ok l) →
      pollCycle ⟨mode, hostPath⟩ t r =
        updateAll hostPath fs (l.filter (fun c => decide (c ≠ s))) r) ∧
    (∀ r2, updateAll hostPath fs l r = .ok r2 →
      ∀ c ∈ l, ∀ cg, fs.FindCgroup hostPath c.ID = .ok cg →
        (∀ c1 ∈ l, c1.labels = c.labels → c1.ID = c.ID ∨ c1.ID = s.ID) →
        ∀ m ∈ cgroupMetrics, ∀ g, m.gauge = some g →
          ∀ v, readMetricValue fs cg m = .ok v → r2.gauges g c.labels = some v) := by
  have hskip : ∀ r0, updateMetrics hostPath fs s r0 = .ok r0 :=
    fun r0 => updateMetricsOver_unresolved hfail r0
  have hfilter : updateAll hostPath fs l r =
      updateAll hostPath fs (l.filter (fun c => decide (c ≠ s))) r := by
    refine updateAll_filter hostPath fs (fun c => decide (c ≠ s)) ?_ l r
    intro c hc r0
    have hcs : c = s := by simpa using hc
    rw [hcs]; exact hskip r0
  refine ⟨hskip, hfilter, ?_, ?_⟩
  · intro mode t hfs hlist
    have hcfg : getCgroupList (Config.mk mode hostPath).mode t = .ok (.ok l) := hlist
    rw [pollCycle_eq_updateAll hcfg r, hfs]
    exact hfilter
  · intro r2 h2 c hc cg hfind hlabels m hm g hg v hread
    refine updateAll_gauge_of_mem hc hfind hm hg hread ?_ h2
    intro c1 hc1 hl1
    rcases hlabels c1 hc1 hl1 with hid | hid
    · exact Or.inl hid
    · exact Or.inr ⟨e, by rw [hid]; exact hfail⟩

set_option maxRecDepth 100000 in
/-- C4 at a concrete input: `stale` does not resolve, `web` does and reads `100`. -/
theorem unresolved_sandbox_isolated_witness :
    (memoryFS 100).FindCgroup "/host" stale.ID = .error .notFound ∧
    updateAll "/host" (memoryFS 100) [stale, web] Registry.empty =
      updateAll "/host" (memoryFS 100) ([stale, web].filter (fun c => decide (c ≠ stale)))
        Registry.empty ∧
    ∃ r2, updateAll "/host" (memoryFS 100) [stale, web] Registry.empty = .ok r2 ∧
      r2.gauges "cgroup_memory_current_bytes" web.labels = some 100 := by
  have key := unresolved_sandbox_isolated "/host" (memoryFS 100) [stale, web] stale .notFound
    rfl Registry.empty
  refine ⟨rfl, key.2.1, _, rfl, ?_⟩
  exact key.2.2.2 _ rfl web (by decide) ⟨"/host/sys/fs/cgroup/abc123"⟩ rfl (by decide)
    (gaugeMetric "cgroup_memory_current_bytes" "memory.current" "") (by decide)
    "cgroup_memory_current_bytes" rfl 100 rfl

/-- C5. When the cgroup of a sandbox resolves and the read of a catalog entry `m` fails,
the loop publishes nothing for `m` (the entry alone leaves the registry as it was), the
result of `updateMetrics` over any catalog, `cgroupMetrics` included, is the result over that
catalog with `m` removed, and in the completed `updateMetrics` every gauge entry of
`cgroupMetrics` whose read succeeded holds the value read. -/
theorem unreadable_metric_isolated (hostPath : String) (fs : HostFS) (c : Sandbox)
    (cg : CGroup) (m : Metric) (e : CgroupError)
    (hfind : fs.FindCgroup hostPath c.ID = .ok cg)
    (hfail : readMetricValue fs cg m = .error e) (r : Registry) :
    updateLoop fs cg c [m] r = .ok r ∧
    (∀ catalog, updateMetricsOver catalog hostPath fs c r =
      updateMetricsOver (catalog.filter (fun m1 => decide (m1 ≠ m))) hostPath fs c r) ∧
    updateMetrics hostPath fs c r =
      updateMetricsOver (cgroupMetrics.filter (fun m1 => decide (m1 ≠ m))) hostPath fs c r ∧
    (∀ r2, updateMetrics hostPath fs c r = .ok r2 →
      ∀ m1 ∈ cgroupMetrics, ∀ g, m1.gauge = some g →
        ∀ v, readMetricValue fs cg m1 = .ok v → r2.gauges g c.labels = some v) := by
  have hgen : ∀ catalog, updateMetricsOver catalog hostPath fs c r =
      updateMetricsOver (catalog.filter (fun m1 => decide (m1 ≠ m))) hostPath fs c r := by
    intro catalog
    rw [updateMetricsOver_resolved hfind, updateMetricsOver_resolved hfind]
    refine updateLoop_filter fs cg c (fun m1 => decide (m1 ≠ m)) ?_ catalog r
    intro m1 hm1
    have hmm : m1 = m := by simpa using hm1
    exact ⟨e, by rw [hmm]; exact hfail⟩
  refine ⟨?_, hgen, hgen cgroupMetrics, ?_⟩
  · rw [updateLoop_cons_error hfail]; rfl
  · intro r2 h2 m1 hm1 g hg v hread
    exact updateMetrics_gauge hfind hm1 hg hread h2

set_option maxRecDepth 100000 in
/-- C5 at a concrete input: on `memoryFS 100` the read of `memory.peak` fails for `web`. -/
theorem unreadable_metric_isolated_witness :
    readMetricValue (memoryFS 100) ⟨"/host/sys/fs/cgroup/abc123"⟩
      (gaugeMetric "cgroup_memory_peak_bytes" "memory.peak" "") = .error .fileUnreadable ∧
    updateMetrics "/host" (memoryFS 100) web Registry.empty =
      updateMetricsOver (cgroupMetrics.filter
        (fun m1 => decide (m1 ≠ gaugeMetric "cgroup_memory_peak_bytes" "memory.peak" "")))
        "/host" (memoryFS 100) web Registry.empty :=
  ⟨rfl, (unreadable_metric_isolated "/host" (memoryFS 100) web ⟨"/host/sys/fs/cgroup/abc123"⟩
    (gaugeMetric "cgroup_memory_peak_bytes" "memory.peak" "") .fileUnreadable rfl rfl
    Registry.empty).2.2.1⟩

/-- C6. When `getCgroupList` returns an error, the cycle leaves the registry as it was,
whatever the host filesystem holds (no sandbox is resolved or read), and the loop goes on with
the next tick: the run over this tick followed by `rest` is the run over `rest`. -/
theorem failed_discovery_skips_cycle (cfg : Config) (t : Tick) (e : DiscoveryError)
    (hfail : getCgroupList cfg.mode t = .ok (.error e)) (r : Registry) (rest : List Tick) :
    pollCycle cfg t r = .ok r ∧
    (∀ fs, pollCycle cfg ⟨t.docker, t.cri, fs⟩ r = .ok r) ∧
    pollMetrics cfg (t :: rest) r = pollMetrics cfg rest r := by
  have h1 : pollCycle cfg t r = .ok r := by
    unfold pollCycle
    rw [hfail]
  refine ⟨h1, ?_, ?_⟩
  · intro fs
    have hsame : getCgroupList cfg.mode ⟨t.docker, t.cri, fs⟩ = getCgroupList cfg.mode t := rfl
    unfold pollCycle
    rw [hsame, hfail]
  · simp only [pollMetrics, h1]

/-- C6 at a concrete input: a tick during which the container engine cannot be reached. -/
theorem failed_discovery_skips_cycle_witness :
    getCgroupList "docker" ⟨.error .unreachable, ⟨.ok (), .ok [], fun _ => .ok []⟩, usageFS 5⟩ =
      .ok (.error .unreachable) ∧
    pollMetrics ⟨"docker", "/host"⟩
      [⟨.error .unreachable, ⟨.ok (), .ok [], fun _ => .ok []⟩, usageFS 5⟩] Registry.empty =
      pollMetrics ⟨"docker", "/host"⟩ [] Registry.empty :=
  ⟨rfl, (failed_discovery_skips_cycle ⟨"docker", "/host"⟩
    ⟨.error .unreachable, ⟨.ok (), .ok [], fun _ => .ok []⟩, usageFS 5⟩ .unreachable rfl
    Registry.empty []).2.2⟩

/-! ### Discovery adapters -/

/-- Every sandbox the container loop returns was there before or was built from a running
container of the list. -/
theorem containersLoop_mem (md : PodSandboxMetadata) :
    ∀ (cs : List Container) (acc out : List Sandbox),
      containersLoop md cs acc = .ok out →
      ∀ sb ∈ out, sb ∈ acc ∨ ∃ ctr ∈ cs, ctr.State = ContainerState.CONTAINER_RUNNING ∧
        ∃ cm, ctr.Metadata = some cm ∧ sb = ⟨ctr.Id, cm.Name, md.Namespace, md.Name⟩ := by
  intro cs
  induction cs with
  | nil =>
    intro acc out h sb hsb
    simp only [containersLoop] at h
    cases h
    exact Or.inl hsb
  | cons ctr rest ih =>
    intro acc out h sb hsb
    simp only [containersLoop] at h
    cases hmd : ctr.Metadata with
    | none => rw [hmd] at h; cases h
    | some cm =>
      rw [hmd] at h
      dsimp only at h
      by_cases hrun : ctr.State = ContainerState.CONTAINER_RUNNING
      · rw [if_pos hrun] at h
        rcases ih _ out h sb hsb with hin | ⟨c1, hc1, hr1, hrest⟩
        · rcases List.mem_append.mp hin with hacc | hnew
          · exact Or.inl hacc
          · right
            refine ⟨ctr, List.mem_cons_self _ _, hrun, cm, hmd, ?_⟩
            simpa using hnew
        · exact Or.inr ⟨c1, List.mem_cons_of_mem _ hc1, hr1, hrest⟩
      · rw [if_neg hrun] at h
        rcases ih _ out h sb hsb with hin | ⟨c1, hc1, hr1, hrest⟩
        · exact Or.inl hin
        · exact Or.inr ⟨c1, List.mem_cons_of_mem _ hc1, hr1, hrest⟩

/-- Every sandbox the pod loop returns was there before, or is the entry of a ready pod
sandbox of the list, or the entry of a running container listed under a pod sandbox of the
list. -/
theorem podsLoop_mem (svc : RuntimeService) :
    ∀ (items : List PodSandbox) (acc out : List Sandbox),
      podsLoop svc items acc = .ok out →
      ∀ sb ∈ out, sb ∈ acc ∨
        (∃ pod ∈ items, pod.State = PodSandboxState.SANDBOX_READY ∧ IsPodEntry pod sb) ∨
        (∃ pod ∈ items, IsRunningContainerEntry svc pod sb) := by
  intro items
  induction items with
  | nil =>
    intro acc out h sb hsb
    simp only [podsLoop] at h
    cases h
    exact Or.inl hsb
  | cons pod rest ih =>
    intro acc out h sb hsb
    simp only [podsLoop] at h
    cases hmd : pod.Metadata with
    | none => rw [hmd] at h; cases h
    | some md =>
      rw [hmd] at h
      dsimp only at h
      have lift : ∀ acc1 : List Sandbox,
          (sb ∈ acc1 ∨
            (∃ p ∈ rest, p.State = PodSandboxState.SANDBOX_READY ∧ IsPodEntry p sb) ∨
            (∃ p ∈ rest, IsRunningContainerEntry svc p sb)) →
          (sb ∈ acc1 → sb ∈ acc ∨
            (∃ p ∈ pod :: rest, p.State = PodSandboxState.SANDBOX_READY ∧ IsPodEntry p sb) ∨
            (∃ p ∈ pod :: rest, IsRunningContainerEntry svc p sb)) →
          sb ∈ acc ∨
            (∃ p ∈ pod :: rest, p.State = PodSandboxState.SANDBOX_READY ∧ IsPodEntry p sb) ∨
            (∃ p ∈ pod :: rest, IsRunningContainerEntry svc p sb) := by
        intro acc1 hcases hacc1
        rcases hcases with h1 | ⟨p, hp, hq⟩ | ⟨p, hp, hq⟩
        · exact hacc1 h1
        · exact Or.inr (Or.inl ⟨p, List.mem_cons_of_mem _ hp, hq⟩)
        · exact Or.inr (Or.inr ⟨p, List.mem_cons_of_mem _ hp, hq⟩)
      have hpodstep : ∀ sb1 : Sandbox,
          sb1 ∈ (if pod.State = PodSandboxState.SANDBOX_READY then
              acc ++ [⟨pod.Id, "", md.Namespace, md.Name⟩] else acc) →
          sb1 ∈ acc ∨ (pod.State = PodSandboxState.SANDBOX_READY ∧ IsPodEntry pod sb1) := by
        intro sb1 hin
        by_cases hready : pod.State = PodSandboxState.SANDBOX_READY
        · rw [if_pos hready] at hin
          rcases List.mem_append.mp hin with hacc | hnew
          · exact Or.inl hacc
          · exact Or.inr ⟨hready, md, hmd, by simpa using hnew⟩
        · rw [if_neg hready] at hin
          exact Or.inl hin
      cases hlist : svc.ListContainers pod.Id with
      | error e =>
        rw [hlist] at h
        dsimp only at h
        refine lift _ (ih _ out h sb hsb) ?_
        intro hin
        rcases hpodstep sb hin with hacc | hpod
        · exact Or.inl hacc
        · exact Or.inr (Or.inl ⟨pod, List.mem_cons_self _ _, hpod⟩)
      | ok cs =>
        rw [hlist] at h
        dsimp only at h
        cases hloop : containersLoop md cs
            (if pod.State = PodSandboxState.SANDBOX_READY then
              acc ++ [⟨pod.Id, "", md.Namespace, md.Name⟩] else acc) with
        | error p => rw [hloop] at h; cases h
        | ok acc2 =>
          rw [hloop] at h
          dsimp only at h
          refine lift _ (ih _ out h sb hsb) ?_
          intro hin
          rcases containersLoop_mem md cs _ acc2 hloop sb hin with hin1 | ⟨ctr, hc, hr, cm, hcm, hsbeq⟩
          · rcases hpodstep sb hin1 with hacc | hpod
            · exact Or.inl hacc
            · exact Or.inr (Or.inl ⟨pod, List.mem_cons_self _ _, hpod⟩)
          · exact Or.inr (Or.inr ⟨pod, List.mem_cons_self _ _, md, hmd, cs, hlist, ctr, hc, hr,
              cm, hcm, hsbeq⟩)

/-- When every running container of the list has a name, the container loop appends one
entry per running container, in list order. -/
theorem dockerLoop_named :
    ∀ (containers : List container) (acc : List Sandbox),
      (∀ c ∈ containers, c.State = "running" → c.Names ≠ []) →
      dockerLoop containers acc = .ok (acc ++
        (containers.filter (fun c => decide (c.State = "running"))).map
          (fun c => dockerEntry c (c.Names.headD ""))) := by
  intro containers
  induction containers with
  | nil => intro acc _; simp [dockerLoop]
  | cons c rest ih =>
    intro acc hnames
    have hrest : ∀ c1 ∈ rest, c1.State = "running" → c1.Names ≠ [] :=
      fun c1 h1 => hnames c1 (List.mem_cons_of_mem _ h1)
    by_cases hrun : c.State = "running"
    · have hne := hnames c (List.mem_cons_self _ _) hrun
      cases hn : c.Names with
      | nil => exact absurd hn hne
      | cons n ns =>
        simp only [dockerLoop, if_pos hrun, hn]
        rw [ih _ hrest, List.filter_cons_of_pos (by simpa using hrun)]
        simp [dockerEntry, hn]
    · simp only [dockerLoop, if_neg hrun]
      rw [ih _ hrest, List.filter_cons_of_neg (by simpa using hrun)]

/-- For every decoded container list in which each running container has at least one name,
`listDockerContainers` returns, without failing, exactly one sandbox per container whose
`State` is `"running"`, in response order, with `ID` the container's `Id`, `Container` the
first entry of `Names` less one leading `/`, and `Namespace` and `Pod` empty; containers in
any other state contribute nothing. -/
theorem listDockerContainers_named (containers : List container)
    (hnames : ∀ c ∈ containers, c.State = "running" → c.Names ≠ []) :
    listDockerContainers (.ok containers) = .ok (.ok
      ((containers.filter (fun c => decide (c.State = "running"))).map
        (fun c => ⟨c.ID, trimLeading (c.Names.headD "") "/", "", ""⟩))) := by
  unfold listDockerContainers
  simp only [dockerLoop_named containers [] hnames, List.nil_append]
  rfl

set_option maxRecDepth 100000 in
/-- The adapter on a running container named `/web`, an exited one, and a running one whose
first name has no leading slash. -/
theorem listDockerContainers_named_witness :
    (∀ c ∈ engineAnswer, c.State = "running" → c.Names ≠ []) ∧
    listDockerContainers (.ok engineAnswer) =
      .ok (.ok [⟨"abc123", "web", "", ""⟩, ⟨"0f0f0f", "db", "", ""⟩]) := by
  have hnames : ∀ c ∈ engineAnswer, c.State = "running" → c.Names ≠ [] := by decide
  refine ⟨hnames, ?_⟩
  rw [listDockerContainers_named engineAnswer hnames]
  rfl

/-- C7 (the code departs from the claim). The claim: no container of a non-ready pod sandbox
is returned. The code: for the pod sandbox `pod1` in state `SANDBOX_NOTREADY` line 39 logs
"Skipping non-running pod" without a `continue`, so lines 42-60 still list its containers and
the running container `ctr1` is returned, although it is neither a ready pod sandbox nor a
running container of a ready one. -/
theorem container_of_unready_pod_returned :
    ∃ sb, listKubernetesPods strayService = .ok (.ok [sb]) ∧
      sb = ⟨"ctr1", "app", "default", "web-0"⟩ ∧
      ¬ ∃ items, strayService.ListPodSandbox = .ok items ∧
        ((∃ pod ∈ items, pod.State = PodSandboxState.SANDBOX_READY ∧ IsPodEntry pod sb) ∨
         (∃ pod ∈ items, pod.State = PodSandboxState.SANDBOX_READY ∧
            IsRunningContainerEntry strayService pod sb)) := by
  refine ⟨_, rfl, rfl, ?_⟩
  rintro ⟨items, hitems, hcase⟩
  have hi : items = [⟨"pod1", some ⟨"web-0", "uid1", "default"⟩, .SANDBOX_NOTREADY⟩] := by
    have : (Except.ok [⟨"pod1", some ⟨"web-0", "uid1", "default"⟩, .SANDBOX_NOTREADY⟩] :
        Except DiscoveryError (List PodSandbox)) = .ok items := hitems
    cases this; rfl
  subst hi
  rcases hcase with ⟨pod, hp, hready, _⟩ | ⟨pod, hp, hready, _⟩ <;>
  · have hpod := List.mem_singleton.mp hp
    subst hpod
    cases hready

/-- What `listKubernetesPods` does return: every sandbox returned is either the entry of a
listed pod sandbox in state `SANDBOX_READY`, or the entry of a container in state
`CONTAINER_RUNNING` that `ListContainers` returned for a listed pod sandbox, whatever the
state of that pod sandbox. -/
theorem listKubernetesPods_entries (svc : RuntimeService) (out : List Sandbox)
    (h : listKubernetesPods svc = .ok (.ok out)) :
    ∃ items, svc.ListPodSandbox = .ok items ∧ ∀ sb ∈ out,
      (∃ pod ∈ items, pod.State = PodSandboxState.SANDBOX_READY ∧ IsPodEntry pod sb) ∨
      (∃ pod ∈ items, IsRunningContainerEntry svc pod sb) := by
  unfold listKubernetesPods at h
  cases hnew : svc.NewClient with
  | error e => rw [hnew] at h; cases h
  | ok u =>
    rw [hnew] at h
    dsimp only at h
    cases hlist : svc.ListPodSandbox with
    | error e => rw [hlist] at h; cases h
    | ok items =>
      rw [hlist] at h
      dsimp only at h
      cases hloop : podsLoop svc items [] with
      | error p => rw [hloop] at h; cases h
      | ok out1 =>
        rw [hloop] at h
        cases h
        refine ⟨items, rfl, ?_⟩
        intro sb hsb
        rcases podsLoop_mem svc items [] out hloop sb hsb with hnil | hrest
        · cases hnil
        · exact hrest

/-- The adapter on a ready pod sandbox with a running and an exited container. -/
theorem listKubernetesPods_entries_witness :
    listKubernetesPods readyService =
      .ok (.ok [⟨"pod1", "", "default", "web-0"⟩, ⟨"ctr1", "app", "default", "web-0"⟩]) ∧
    ∃ items, readyService.ListPodSandbox = .ok items ∧
      ∀ sb ∈ [(⟨"pod1", "", "default", "web-0"⟩ : Sandbox), ⟨"ctr1", "app", "default", "web-0"⟩],
        (∃ pod ∈ items, pod.State = PodSandboxState.SANDBOX_READY ∧ IsPodEntry pod sb) ∨
        (∃ pod ∈ items, IsRunningContainerEntry readyService pod sb) :=
  ⟨rfl, listKubernetesPods_entries readyService _ rfl⟩

/-- C8 (the code departs from the claim). The claim: for every decoded container list
`listDockerContainers` returns without failing. The code: for a decoded list holding a running
container whose `Names` is empty it does not return, `c.Names[0]` on line 52 panics with an
index out of range. -/
theorem listDockerContainers_panics_without_name :
    listDockerContainers (.ok [⟨"abc123", [], "running"⟩]) = .error .indexOutOfRange ∧
    ¬ ∃ result, listDockerContainers (.ok [⟨"abc123", [], "running"⟩]) = .ok result := by
  refine ⟨rfl, ?_⟩
  rintro ⟨result, h⟩
  have h1 : listDockerContainers (.ok [⟨"abc123", [], "running"⟩]) = .error .indexOutOfRange :=
    rfl
  rw [h1] at h
  cases h

/-! ### The stat-file reader -/

theorem scanLines_skip {field line : List Char} (rest : List (List Char))
    (h : keyOf line ≠ some field) : scanLines field (line :: rest) = scanLines field rest := by
  unfold keyOf at h
  rw [scanLines]
  cases htok : tokens line with
  | nil => rfl
  | cons key more =>
    have hne : key ≠ field := by
      intro hk
      apply h
      rw [htok, hk]; rfl
    simp [hne]

theorem scanLines_hit {field line : List Char} (rest : List (List Char))
    (h : keyOf line = some field) :
    scanLines field (line :: rest) =
      match (valueOf line).bind parseInteger with
      | some v => .ok v
      | none => .error .parseError := by
  unfold keyOf at h
  unfold valueOf
  rw [scanLines]
  cases htok : tokens line with
  | nil => rw [htok] at h; cases h
  | cons key more =>
    rw [htok] at h
    have hk : key = field := by simpa using h
    subst hk
    cases more with
    | nil => simp
    | cons value others =>
      cases hv : parseInteger value <;> simp [hv]

theorem scanLines_hit_ne_notFound {field line : List Char} (rest : List (List Char))
    (h : keyOf line = some field) :
    scanLines field (line :: rest) ≠ .error .fieldNotFound := by
  rw [scanLines_hit rest h]
  cases (valueOf line).bind parseInteger <;> simp

/-- The scan fails with `FieldNotFound` exactly when no line has the field as its key. -/
theorem scanLines_notFound_iff (field : List Char) :
    ∀ lines : List (List Char),
      scanLines field lines = .error .fieldNotFound ↔ ∀ ln ∈ lines, keyOf ln ≠ some field := by
  intro lines
  induction lines with
  | nil => simp [scanLines]
  | cons line rest ih =>
    by_cases hk : keyOf line = some field
    · constructor
      · intro h
        exact absurd h (scanLines_hit_ne_notFound rest hk)
      · intro h
        exact absurd hk (h line (List.mem_cons_self _ _))
    · rw [scanLines_skip rest hk, ih]
      constructor
      · intro h ln hln
        rcases List.mem_cons.mp hln with heq | hin
        · rw [heq]; exact hk
        · exact h ln hin
      · intro h ln hln
        exact h ln (List.mem_cons_of_mem _ hln)

/-- The scan is decided by the first line whose key is the field. -/
theorem scanLines_first (field : List Char) :
    ∀ (pre : List (List Char)) (line : List Char) (post : List (List Char)),
      (∀ l ∈ pre, keyOf l ≠ some field) → keyOf line = some field →
      scanLines field (pre ++ line :: post) =
        match (valueOf line).bind parseInteger with
        | some v => .ok v
        | none => .error .parseError := by
  intro pre
  induction pre with
  | nil =>
    intro line post _ hk
    exact scanLines_hit post hk
  | cons l0 pre1 ih =>
    intro line post hpre hk
    rw [List.cons_append, scanLines_skip _ (hpre l0 (List.mem_cons_self _ _))]
    exact ih line post (fun l hl => hpre l (List.mem_cons_of_mem _ hl)) hk

/-- C9. For every file content and every field name, `ReadKeyedField` (the keyed-field read,
`CGroup.ReadIntegerField` in the code) fails with `FieldNotFound` if and only if no line's
key token equals the field, character for character; and when a line's key equals the field
and no earlier line's does, the result is decided by that line: the integer its value token
denotes, or `ParseError` when that token is missing or not a base-10 integer. -/
theorem ReadKeyedField_first_match (text field : String) :
    (ReadKeyedField (some text) field = .error .fieldNotFound ↔
      ∀ ln ∈ fileLines text.data, keyOf ln ≠ some field.data) ∧
    (∀ pre line post, fileLines text.data = pre ++ line :: post →
      (∀ l ∈ pre, keyOf l ≠ some field.data) → keyOf line = some field.data →
      ReadKeyedField (some text) field =
        match (valueOf line).bind parseInteger with
        | some v => .ok v
        | none => .error .parseError) := by
  refine ⟨scanLines_notFound_iff field.data (fileLines text.data), ?_⟩
  intro pre line post hsplit hpre hk
  unfold ReadKeyedField
  dsimp only
  rw [hsplit]
  exact scanLines_first field.data pre line post hpre hk

set_option maxRecDepth 100000 in
/-- The reader on the specification's examples, on a duplicated key, on keys differing in
case, and on a value that is not an integer. -/
theorem ReadKeyedField_examples :
    ReadKeyedField (some statText) "file" = .ok 2000 ∧
    ReadKeyedField (some statText) "missing" = .error .fieldNotFound ∧
    ReadKeyedField (some "anon 1\nanon 2\n") "anon" = .ok 1 ∧
    ReadKeyedField (some "Anon 1\nanon -2\n") "anon" = .ok (-2) ∧
    ReadKeyedField (some "anon x1\nanon 2\n") "anon" = .error .parseError ∧
    ReadKeyedField none "anon" = .error .fileUnreadable :=
  ⟨rfl, rfl, rfl, rfl, rfl, rfl⟩

/-! ### The cgroup resolver -/

theorem mem_insertByName {α : Type} (x y : String × α) :
    ∀ l : List (String × α), y ∈ insertByName x l ↔ y = x ∨ y ∈ l := by
  intro l
  induction l with
  | nil => simp [insertByName]
  | cons z zs ih =>
    unfold insertByName
    split
    · simp
    · simp only [List.mem_cons, ih]
      tauto

theorem mem_sortByName {α : Type} (y : String × α) :
    ∀ l : List (String × α), y ∈ sortByName l ↔ y ∈ l := by
  intro l
  induction l with
  | nil => simp [sortByName]
  | cons x xs ih => simp [sortByName, mem_insertByName, ih]

theorem insertByName_map {α β : Type} (f : α → β) (x : String × α) :
    ∀ l : List (String × α),
      insertByName (x.1, f x.2) (l.map (fun y => (y.1, f y.2))) =
        (insertByName x l).map (fun y => (y.1, f y.2)) := by
  intro l
  induction l with
  | nil => simp [insertByName]
  | cons z zs ih =>
    simp only [List.map_cons, insertByName]
    split
    · simp
    · simp [ih]

theorem sortByName_map {α β : Type} (f : α → β) :
    ∀ l : List (String × α),
      sortByName (l.map (fun y => (y.1, f y.2))) =
        (sortByName l).map (fun y => (y.1, f y.2)) := by
  intro l
  induction l with
  | nil => simp [sortByName]
  | cons x xs ih =>
    simp only [List.map_cons, sortByName, ih]
    exact insertByName_map f x (sortByName xs)

/-- The first hit among the per-directory searches is the first hit in the concatenation of
the per-directory enumerations. -/
theorem firstFound_map_find (hit : String × String → Bool) :
    ∀ l : List (String × List (String × String)),
      firstFound (l.map (fun y => (y.1, (y.2.find? hit).map Prod.fst))) =
        ((l.map Prod.snd).flatten.find? hit).map Prod.fst := by
  intro l
  induction l with
  | nil => rfl
  | cons x xs ih =>
    simp only [List.map_cons, List.flatten_cons, List.find?_append]
    cases hx : x.2.find? hit with
    | none =>
      simp only [Option.map_none', Option.none_or, firstFound]
      exact ih
    | some e =>
      simp [firstFound, Option.or]

mutual
/-- The search of a directory returns the path of the first directory, in traversal order,
whose name contains the ID. -/
theorem searchDir_eq_find (sandboxID : String) :
    ∀ (parent : String) (d : Dir),
      searchDir sandboxID parent d =
        ((walkDir parent d).find? (fun e => nameContains e.2 sandboxID)).map Prod.fst
  | parent, .mk name children => by
    rw [searchDir, walkDir]
    by_cases hn : nameContains name sandboxID = true
    · rw [if_pos hn, List.find?_cons_of_pos _ (by simpa using hn)]
      rfl
    · rw [if_neg hn, List.find?_cons_of_neg _ (by simpa using hn),
        searchChildren_eq_find sandboxID (parent ++ "/" ++ name) children,
        sortByName_map
          (fun es : List (String × String) =>
            (es.find? (fun e => nameContains e.2 sandboxID)).map Prod.fst),
        firstFound_map_find]
/-- The searches of a list of directories are the first hits of their enumerations. -/
theorem searchChildren_eq_find (sandboxID : String) :
    ∀ (parent : String) (ds : List Dir),
      searchChildren sandboxID parent ds =
        (walkChildren parent ds).map
          (fun y => (y.1, (y.2.find? (fun e => nameContains e.2 sandboxID)).map Prod.fst))
  | _, [] => by simp [searchChildren, walkChildren]
  | parent, d :: ds => by
    rw [searchChildren, walkChildren, List.map_cons, searchDir_eq_find sandboxID parent d,
      searchChildren_eq_find sandboxID parent ds]
end

mutual
/-- The names met by the traversal of a directory are the names of the directory and of the
directories below it. -/
theorem walkDir_names :
    ∀ (parent : String) (d : Dir) (n : String),
      (∃ e ∈ walkDir parent d, e.2 = n) ↔ ∃ d1 ∈ d.subdirs, d1.name = n
  | parent, .mk name children, n => by
    rw [walkDir, Dir.subdirs]
    have ih := walkChildren_names (parent ++ "/" ++ name) children n
    constructor
    · rintro ⟨e, he, hen⟩
      rcases List.mem_cons.mp he with heq | hin
      · exact ⟨.mk name children, List.mem_cons_self _ _, by rw [← hen, heq]; rfl⟩
      · obtain ⟨es, hes, hees⟩ := List.mem_flatten.mp hin
        obtain ⟨x, hx, hxes⟩ := List.mem_map.mp hes
        have hx1 := (mem_sortByName x _).mp hx
        obtain ⟨d1, hd1, hn1⟩ := ih.mp ⟨x, hx1, e, by rw [hxes]; exact hees, hen⟩
        exact ⟨d1, List.mem_cons_of_mem _ hd1, hn1⟩
    · rintro ⟨d1, hd1, hn1⟩
      rcases List.mem_cons.mp hd1 with heq | hin
      · exact ⟨(parent ++ "/" ++ name, name), List.mem_cons_self _ _, by rw [← hn1, heq]; rfl⟩
      · obtain ⟨x, hx, e, he, hen⟩ := ih.mpr ⟨d1, hin, hn1⟩
        refine ⟨e, List.mem_cons_of_mem _ (List.mem_flatten.mpr ⟨x.2, ?_, he⟩), hen⟩
        exact List.mem_map.mpr ⟨x, (mem_sortByName x _).mpr hx, rfl⟩
/-- The names met by the traversals of a list of directories are the names of all their
directories. -/
theorem walkChildren_names :
    ∀ (parent : String) (ds : List Dir) (n : String),
      (∃ x ∈ walkChildren parent ds, ∃ e ∈ x.2, e.2 = n) ↔ ∃ d1 ∈ forestDirs ds, d1.name = n
  | _, [], n => by simp [walkChildren, forestDirs]
  | parent, d :: ds, n => by
    rw [walkChildren, forestDirs]
    have ih1 := walkDir_names parent d n
    have ih2 := walkChildren_names parent ds n
    constructor
    · rintro ⟨x, hx, e, he, hen⟩
      rcases List.mem_cons.mp hx with heq | hin
      · subst heq
        obtain ⟨d1, hd1, hn1⟩ := ih1.mp ⟨e, he, hen⟩
        exact ⟨d1, List.mem_append.mpr (Or.inl hd1), hn1⟩
      · obtain ⟨d1, hd1, hn1⟩ := ih2.mp ⟨x, hin, e, he, hen⟩
        exact ⟨d1, List.mem_append.mpr (Or.inr hd1), hn1⟩
    · rintro ⟨d1, hd1, hn1⟩
      rcases List.mem_append.mp hd1 with h1 | h2
      · obtain ⟨e, he, hen⟩ := ih1.mpr ⟨d1, h1, hn1⟩
        exact ⟨(d.name, walkDir parent d), List.mem_cons_self _ _, e, he, hen⟩
      · obtain ⟨x, hx, e, he, hen⟩ := ih2.mpr ⟨d1, h2, hn1⟩
        exact ⟨x, List.mem_cons_of_mem _ hx, e, he, hen⟩
end

/-- `Resolve` returns the path of the first directory of the traversal whose name contains the
ID, and `NotFound` when the traversal meets none. -/
theorem Resolve_eq_find (hostRoot : String) (tree : List Dir) (sandboxID : String) :
    Resolve hostRoot tree sandboxID =
      match (walkTree hostRoot tree).find? (fun e => nameContains e.2 sandboxID) with
      | some e => .ok ⟨e.1⟩
      | none => .error .notFound := by
  unfold Resolve walkTree
  rw [searchChildren_eq_find,
    sortByName_map (fun es : List (String × String) =>
            (es.find? (fun e => nameContains e.2 sandboxID)).map Prod.fst),
    firstFound_map_find]
  cases ((sortByName (walkChildren (hostRoot ++ "/sys/fs/cgroup") tree)).map
    Prod.snd).flatten.find? (fun e => nameContains e.2 sandboxID) <;> rfl

/-- The names met by the traversal of the hierarchy are the names of its directories, at any
depth. -/
theorem walkTree_names (hostRoot : String) (tree : List Dir) (n : String) :
    (∃ e ∈ walkTree hostRoot tree, e.2 = n) ↔ ∃ d ∈ forestDirs tree, d.name = n := by
  rw [← walkChildren_names (hostRoot ++ "/sys/fs/cgroup") tree n]
  unfold walkTree
  constructor
  · rintro ⟨e, he, hen⟩
    obtain ⟨es, hes, hees⟩ := List.mem_flatten.mp he
    obtain ⟨x, hx, hxes⟩ := List.mem_map.mp hes
    exact ⟨x, (mem_sortByName x _).mp hx, e, by rw [hxes]; exact hees, hen⟩
  · rintro ⟨x, hx, e, he, hen⟩
    exact ⟨e, List.mem_flatten.mpr ⟨x.2, List.mem_map.mpr ⟨x, (mem_sortByName x _).mpr hx, rfl⟩,
      he⟩, hen⟩

mutual
/-- Every path of the traversal of a directory extends the path of its parent and ends in the
directory's own name. -/
theorem walkDir_paths :
    ∀ (parent : String) (d : Dir) (e : String × String), e ∈ walkDir parent d →
      ∃ mid, e.1 = parent ++ mid ++ "/" ++ e.2
  | parent, .mk name children, e, he => by
    rw [walkDir] at he
    rcases List.mem_cons.mp he with heq | hin
    · refine ⟨"", ?_⟩
      rw [heq, String.append_empty]
    · obtain ⟨es, hes, hees⟩ := List.mem_flatten.mp hin
      obtain ⟨x, hx, hxes⟩ := List.mem_map.mp hes
      have hx1 := (mem_sortByName x _).mp hx
      obtain ⟨mid, hmid⟩ :=
        walkChildren_paths (parent ++ "/" ++ name) children x hx1 e (by rw [hxes]; exact hees)
      refine ⟨"/" ++ name ++ mid, ?_⟩
      rw [hmid]
      simp only [String.append_assoc]
/-- Every path of the traversals of a list of directories extends the path of the parent. -/
theorem walkChildren_paths :
    ∀ (parent : String) (ds : List Dir) (x : String × List (String × String)),
      x ∈ walkChildren parent ds → ∀ e ∈ x.2, ∃ mid, e.1 = parent ++ mid ++ "/" ++ e.2
  | _, [], x, hx => by simp [walkChildren] at hx
  | parent, d :: ds, x, hx => by
    rw [walkChildren] at hx
    intro e he
    rcases List.mem_cons.mp hx with heq | hin
    · subst heq
      exact walkDir_paths parent d e he
    · exact walkChildren_paths parent ds x hin e he
end

/-- C10. For every host root, directory tree and sandbox ID, `Resolve` (`FindCgroup` in the
code) succeeds if and only if some directory of the hierarchy under
`<hostRoot>/sys/fs/cgroup`, at any depth, has a name containing the ID; its result is the path
of the first such directory in depth-first order with siblings in lexicographic order, a path
under `<hostRoot>/sys/fs/cgroup` ending in that directory's name; and its only error is
`NotFound`. -/
theorem Resolve_first_match (hostRoot : String) (tree : List Dir) (sandboxID : String) :
    ((∃ cg, Resolve hostRoot tree sandboxID = .ok cg) ↔
      ∃ d ∈ forestDirs tree, nameContains d.name sandboxID = true) ∧
    (Resolve hostRoot tree sandboxID =
      match (walkTree hostRoot tree).find? (fun e => nameContains e.2 sandboxID) with
      | some e => .ok ⟨e.1⟩
      | none => .error .notFound) ∧
    (∀ e ∈ walkTree hostRoot tree, ∃ mid, e.1 = hostRoot ++ "/sys/fs/cgroup" ++ mid ++ "/" ++ e.2) ∧
    (∀ err, Resolve hostRoot tree sandboxID = .error err → err = .notFound) := by
  have hfind := Resolve_eq_find hostRoot tree sandboxID
  refine ⟨?_, hfind, ?_, ?_⟩
  · rw [hfind]
    constructor
    · rintro ⟨cg, hcg⟩
      cases hf : (walkTree hostRoot tree).find? (fun e => nameContains e.2 sandboxID) with
      | none => rw [hf] at hcg; cases hcg
      | some e =>
        have hmem := List.mem_of_find?_eq_some hf
        have hp := List.find?_some hf
        obtain ⟨d, hd, hn⟩ := (walkTree_names hostRoot tree e.2).mp ⟨e, hmem, rfl⟩
        exact ⟨d, hd, by rw [hn]; exact hp⟩
    · rintro ⟨d, hd, hn⟩
      obtain ⟨e, he, hen⟩ := (walkTree_names hostRoot tree d.name).mpr ⟨d, hd, rfl⟩
      cases hf : (walkTree hostRoot tree).find? (fun e => nameContains e.2 sandboxID) with
      | none =>
        have hnone := List.find?_eq_none.mp hf e he
        rw [hen] at hnone
        exact absurd hn hnone
      | some e1 => exact ⟨⟨e1.1⟩, rfl⟩
  · intro e he
    unfold walkTree at he
    obtain ⟨es, hes, hees⟩ := List.mem_flatten.mp he
    obtain ⟨x, hx, hxes⟩ := List.mem_map.mp hes
    exact walkChildren_paths (hostRoot ++ "/sys/fs/cgroup") tree x
      ((mem_sortByName x _).mp hx) e (by rw [hxes]; exact hees)
  · intro err herr
    rw [hfind] at herr
    cases hf : (walkTree hostRoot tree).find? (fun e => nameContains e.2 sandboxID) with
    | none =>
      rw [hf] at herr
      cases herr; rfl
    | some e => rw [hf] at herr; cases herr

set_option maxRecDepth 100000 in
/-- The resolver on the specification's examples: a scope of the container engine under
`system.slice`, a scope nested three slices deep, an ID matching several directories (the
first in traversal order wins), and an ID matching none. -/
theorem Resolve_examples :
    Resolve "/host" sampleTree "abc123" =
      .ok ⟨"/host/sys/fs/cgroup/system.slice/docker-abc123.scope"⟩ ∧
    Resolve "/host" sampleTree "def456" =
      .ok ⟨"/host/sys/fs/cgroup/kubepods.slice/kubepods-burstable.slice/podXYZ.slice/cri-containerd-def456.scope"⟩ ∧
    Resolve "/host" sampleTree ".scope" =
      .ok ⟨"/host/sys/fs/cgroup/kubepods.slice/kubepods-burstable.slice/podXYZ.slice/cri-containerd-def456.scope"⟩ ∧
    Resolve "/host" sampleTree "0000" = .error .notFound :=
  ⟨rfl, rfl, rfl, rfl⟩

/-! ### The loop over the modelled host -/

/-- On the modelled host `readMetricValue` is the scalar read for an entry without field and
the keyed read for an entry with one. -/
theorem readMetricValue_specHost (tree : List Dir) (files : String → String → Option String)
    (cg : CGroup) (m : Metric) :
    readMetricValue (specHost tree files) cg m =
      if m.cgroupFileField = "" then ReadScalar (files cg.path m.cgroupFile)
      else ReadKeyedField (files cg.path m.cgroupFile) m.cgroupFileField := by
  rfl

set_option maxRecDepth 1000000 in
/-- One `updateMetrics` over the modelled host, from the resolution of the sandbox ID to the
sinks: the scalar and the keyed values are published, the unparsable `memory.max` and the
missing `cpu.stat` are skipped. -/
theorem updateMetrics_specHost_example :
    ∃ r, updateMetrics "/host" (specHost sampleTree sampleFiles) web Registry.empty = .ok r ∧
      r.gauges "cgroup_memory_current_bytes" web.labels = some 104857600 ∧
      r.gauges "cgroup_memory_stat_file_bytes" web.labels = some 2000 ∧
      r.gauges "cgroup_memory_stat_shmem_bytes" web.labels = some 0 ∧
      r.gauges "cgroup_memory_max_bytes" web.labels = none ∧
      r.counters "cgroup_cpu_usage_usec" web.labels = none := by
  refine ⟨_, rfl, ?_, ?_, ?_, ?_, ?_⟩ <;> decide

/-! ### One publication per value read -/

/-- The publication of `updateMetrics` is the sink call of the entry, when it has one, and
nothing otherwise. -/
theorem publish_eq_perform (m : Metric) (c : Sandbox) (v : Int) (r : Registry) :
    publish m c v r =
      match publicationOf m c v with
      | some p => r.perform p
      | none => .ok r := by
  unfold publish publicationOf
  cases m.gauge with
  | some g => rfl
  | none =>
    cases m.counter with
    | some k => rfl
    | none => rfl

/-- The log kept beside the loop does not change what the loop returns. -/
theorem updateLoopTrace_result (fs : HostFS) (cg : CGroup) (c : Sandbox) :
    ∀ (catalog : List Metric) (r : Registry),
      (updateLoopTrace fs cg c catalog r).2 = updateLoop fs cg c catalog r := by
  intro catalog
  induction catalog with
  | nil => intro r; rfl
  | cons m rest ih =>
    intro r
    simp only [updateLoopTrace, updateLoop]
    cases readMetricValue fs cg m with
    | error e => exact ih r
    | ok v =>
      dsimp only
      cases publish m c v r with
      | error p => rfl
      | ok r1 => exact ih r1

/-- Every step of the log is a catalog entry whose read succeeded, with the value read and the
sink call of the entry for that value. -/
theorem updateLoopTrace_steps (fs : HostFS) (cg : CGroup) (c : Sandbox) :
    ∀ (catalog : List Metric) (r : Registry),
      ∀ step ∈ (updateLoopTrace fs cg c catalog r).1,
        step.metric ∈ catalog ∧ readMetricValue fs cg step.metric = .ok step.value ∧
          step.call = publicationOf step.metric c step.value := by
  intro catalog
  induction catalog with
  | nil =>
    intro r step hstep
    simp [updateLoopTrace] at hstep
  | cons m rest ih =>
    intro r step hstep
    simp only [updateLoopTrace] at hstep
    cases hread : readMetricValue fs cg m with
    | error e =>
      rw [hread] at hstep
      obtain ⟨h1, h2⟩ := ih r step hstep
      exact ⟨List.mem_cons_of_mem _ h1, h2⟩
    | ok v =>
      rw [hread] at hstep
      dsimp only at hstep
      cases hp : publish m c v r with
      | error p =>
        rw [hp] at hstep
        have hs : step = ⟨m, v, publicationOf m c v⟩ := by simpa using hstep
        subst hs
        exact ⟨List.mem_cons_self _ _, hread, rfl⟩
      | ok r1 =>
        rw [hp] at hstep
        rcases List.mem_cons.mp hstep with hs | hin
        · subst hs
          exact ⟨List.mem_cons_self _ _, hread, rfl⟩
        · obtain ⟨h1, h2⟩ := ih r1 step hin
          exact ⟨List.mem_cons_of_mem _ h1, h2⟩

/-- The entries of the log are, in order, the entries of the catalog whose read succeeds, up
to the step at which the loop stopped; all of them when the loop ran to completion. -/
theorem updateLoopTrace_metrics (fs : HostFS) (cg : CGroup) (c : Sandbox) :
    ∀ (catalog : List Metric) (r : Registry),
      (∃ later, (updateLoopTrace fs cg c catalog r).1.map Step.metric ++ later =
        catalog.filter (readSucceeds fs cg)) ∧
      (∀ r2, (updateLoopTrace fs cg c catalog r).2 = .ok r2 →
        (updateLoopTrace fs cg c catalog r).1.map Step.metric =
          catalog.filter (readSucceeds fs cg)) := by
  intro catalog
  induction catalog with
  | nil =>
    intro r
    exact ⟨⟨[], rfl⟩, fun _ _ => rfl⟩
  | cons m rest ih =>
    intro r
    cases hread : readMetricValue fs cg m with
    | error e =>
      have hno : readSucceeds fs cg m = false := by simp [readSucceeds, hread]
      have htrace : updateLoopTrace fs cg c (m :: rest) r = updateLoopTrace fs cg c rest r := by
        simp only [updateLoopTrace, hread]
      rw [htrace, List.filter_cons_of_neg (by simp [hno])]
      exact ih r
    | ok v =>
      have hyes : readSucceeds fs cg m = true := by simp [readSucceeds, hread]
      rw [List.filter_cons_of_pos hyes]
      cases hp : publish m c v r with
      | error p =>
        have htrace : updateLoopTrace fs cg c (m :: rest) r =
            ([⟨m, v, publicationOf m c v⟩], .error p) := by
          simp only [updateLoopTrace, hread, hp]
        rw [htrace]
        refine ⟨⟨rest.filter (readSucceeds fs cg), rfl⟩, ?_⟩
        intro r2 h2
        cases h2
      | ok r1 =>
        have htrace : updateLoopTrace fs cg c (m :: rest) r =
            (⟨m, v, publicationOf m c v⟩ :: (updateLoopTrace fs cg c rest r1).1,
              (updateLoopTrace fs cg c rest r1).2) := by
          simp only [updateLoopTrace, hread, hp]
        rw [htrace]
        obtain ⟨⟨later, hlater⟩, hdone⟩ := ih r1
        refine ⟨⟨later, ?_⟩, ?_⟩
        · simp only [List.map_cons, List.cons_append, hlater]
        · intro r2 h2
          simp only [List.map_cons, hdone r2 h2]

set_option maxRecDepth 100000 in
/-- Every entry of `cgroupMetrics` has exactly one of its two sinks and names a file. -/
theorem cgroupMetrics_one_sink :
    ∀ m ∈ cgroupMetrics,
      ((m.gauge ≠ none ∧ m.counter = none) ∨ (m.gauge = none ∧ m.counter ≠ none)) ∧
        m.cgroupFile ≠ "" := by
  decide

/-- An entry with exactly one sink has a sink call for every value: `Set` on its gauge or
`Add` on its counter, under the labels of the sandbox. -/
theorem publicationOf_one_sink (m : Metric) (c : Sandbox) (v : Int)
    (h : (m.gauge ≠ none ∧ m.counter = none) ∨ (m.gauge = none ∧ m.counter ≠ none)) :
    (∃ g, m.gauge = some g ∧ m.counter = none ∧
      publicationOf m c v = some (.set g c.labels v)) ∨
    (∃ k, m.gauge = none ∧ m.counter = some k ∧
      publicationOf m c v = some (.add k c.labels v)) := by
  unfold publicationOf
  rcases h with ⟨hg, hk⟩ | ⟨hg, hk⟩
  · cases hmg : m.gauge with
    | none => exact absurd hmg hg
    | some g => exact Or.inl ⟨g, rfl, hk, rfl⟩
  · cases hmk : m.counter with
    | none => exact absurd hmk hk
    | some k =>
      right
      exact ⟨k, hg, rfl, by rw [hg]⟩

/-- The catalog has no entry twice. -/
theorem cgroupMetrics_nodup : cgroupMetrics.Nodup :=
  List.Nodup.of_map _ cgroupMetrics_sinks_nodup

/-- The log of `updateMetrics` for a sandbox whose cgroup resolves is the log of the loop. -/
theorem updateMetricsTrace_resolved {hostPath : String} {fs : HostFS} {c : Sandbox}
    {cg : CGroup} (h : fs.FindCgroup hostPath c.ID = .ok cg) (r : Registry) :
    updateMetricsTrace hostPath fs c r = updateLoopTrace fs cg c cgroupMetrics r := by
  simp [updateMetricsTrace, h]

/-- The log kept beside `updateMetrics` does not change what it returns. -/
theorem updateMetricsTrace_result (hostPath : String) (fs : HostFS) (c : Sandbox)
    (r : Registry) :
    (updateMetricsTrace hostPath fs c r).2 = updateMetrics hostPath fs c r := by
  unfold updateMetrics
  cases hfind : fs.FindCgroup hostPath c.ID with
  | error e =>
    rw [updateMetricsOver_unresolved hfind]
    simp [updateMetricsTrace, hfind]
  | ok cg =>
    rw [updateMetricsOver_resolved hfind, updateMetricsTrace_resolved hfind]
    exact updateLoopTrace_result fs cg c cgroupMetrics r

/-- The number of steps of a log for an entry is the number of times the entry is among the
entries of the log. -/
theorem steps_for_metric_length (steps : List Step) (m : Metric) :
    (steps.filter (fun step => decide (step.metric = m))).length =
      (steps.map Step.metric).count m := by
  induction steps with
  | nil => rfl
  | cons step rest ih =>
    by_cases h : step.metric = m
    · rw [List.filter_cons_of_pos (by simpa using h), List.map_cons, List.length_cons, ih, h,
        List.count_cons_self]
    · rw [List.filter_cons_of_neg (by simpa using h), List.map_cons, ih,
        List.count_cons_of_ne (fun hm => h hm.symm)]

/-- C11. Every entry of `cgroupMetrics` has exactly one of its gauge and counter sinks set
(never both, never neither) and a non-empty `cgroupFile`. Consequently, with the steps of
`updateMetrics` logged beside it (the log does not change its result): every value read is
one step whose sink call is a `Set` on the entry's gauge or an `Add` on the entry's counter
with that value under the sandbox's labels, and that call is the publication made; the steps
are, in order, the catalog entries whose read succeeds, up to the step at which a panicking
`Add` stopped the loop; and when `updateMetrics` ran to completion every catalog entry whose
read succeeds has exactly one step, so no value read is dropped. -/
theorem one_publication_per_read :
    (∀ m ∈ cgroupMetrics,
      ((m.gauge ≠ none ∧ m.counter = none) ∨ (m.gauge = none ∧ m.counter ≠ none)) ∧
        m.cgroupFile ≠ "") ∧
    (∀ (hostPath : String) (fs : HostFS) (c : Sandbox) (r : Registry),
      (updateMetricsTrace hostPath fs c r).2 = updateMetrics hostPath fs c r ∧
      (∀ step ∈ (updateMetricsTrace hostPath fs c r).1,
        step.metric ∈ cgroupMetrics ∧
        (∃ cg, fs.FindCgroup hostPath c.ID = .ok cg ∧
          readMetricValue fs cg step.metric = .ok step.value) ∧
        ((∃ g, step.metric.gauge = some g ∧ step.metric.counter = none ∧
            step.call = some (.set g c.labels step.value)) ∨
          (∃ k, step.metric.gauge = none ∧ step.metric.counter = some k ∧
            step.call = some (.add k c.labels step.value))) ∧
        (∀ p, step.call = some p →
          ∀ r0, publish step.metric c step.value r0 = r0.perform p)) ∧
      (∀ cg, fs.FindCgroup hostPath c.ID = .ok cg →
        (∃ later, (updateMetricsTrace hostPath fs c r).1.map Step.metric ++ later =
          cgroupMetrics.filter (readSucceeds fs cg)) ∧
        (∀ r2, updateMetrics hostPath fs c r = .ok r2 →
          (updateMetricsTrace hostPath fs c r).1.map Step.metric =
            cgroupMetrics.filter (readSucceeds fs cg) ∧
          ∀ m ∈ cgroupMetrics, readSucceeds fs cg m = true →
            ((updateMetricsTrace hostPath fs c r).1.filter
              (fun step => decide (step.metric = m))).length = 1))) := by
  refine ⟨cgroupMetrics_one_sink, ?_⟩
  intro hostPath fs c r
  refine ⟨updateMetricsTrace_result hostPath fs c r, ?_, ?_⟩
  · intro step hstep
    cases hfind : fs.FindCgroup hostPath c.ID with
    | error e =>
      simp [updateMetricsTrace, hfind] at hstep
    | ok cg =>
      rw [updateMetricsTrace_resolved hfind] at hstep
      obtain ⟨hmem, hread, hcall⟩ := updateLoopTrace_steps fs cg c cgroupMetrics r step hstep
      refine ⟨hmem, ⟨cg, rfl, hread⟩, ?_, ?_⟩
      · rw [hcall]
        rcases publicationOf_one_sink step.metric c step.value
            (cgroupMetrics_one_sink step.metric hmem).1 with ⟨g, hg, hk, hp⟩ | ⟨k, hg, hk, hp⟩
        · exact Or.inl ⟨g, hg, hk, hp⟩
        · exact Or.inr ⟨k, hg, hk, hp⟩
      · intro p hp r0
        rw [publish_eq_perform, ← hcall, hp]
  · intro cg hfind
    rw [updateMetricsTrace_resolved hfind]
    obtain ⟨hsome, hdone⟩ := updateLoopTrace_metrics fs cg c cgroupMetrics r
    refine ⟨hsome, ?_⟩
    intro r2 h2
    have hres : (updateLoopTrace fs cg c cgroupMetrics r).2 = .ok r2 := by
      rw [← updateMetricsTrace_resolved hfind, updateMetricsTrace_result]
      exact h2
    have hall := hdone r2 hres
    refine ⟨hall, ?_⟩
    intro m hm hread
    rw [steps_for_metric_length, hall]
    exact List.count_eq_one_of_mem (cgroupMetrics_nodup.filter _)
      (List.mem_filter.mpr ⟨hm, hread⟩)

set_option maxRecDepth 1000000 in
/-- The steps of one `updateMetrics` over the modelled host: the four values that can be read
are each published by one `Set`; the unparsable `memory.max` is no step. -/
theorem updateMetricsTrace_example :
    (updateMetricsTrace "/host" (specHost sampleTree sampleFiles) web Registry.empty).1 =
      [ ⟨gaugeMetric "cgroup_memory_current_bytes" "memory.current" "", 104857600,
          some (.set "cgroup_memory_current_bytes" ("web", "", "") 104857600)⟩,
        ⟨gaugeMetric "cgroup_memory_stat_anon_bytes" "memory.stat" "anon", 1000,
          some (.set "cgroup_memory_stat_anon_bytes" ("web", "", "") 1000)⟩,
        ⟨gaugeMetric "cgroup_memory_stat_file_bytes" "memory.stat" "file", 2000,
          some (.set "cgroup_memory_stat_file_bytes" ("web", "", "") 2000)⟩,
        ⟨gaugeMetric "cgroup_memory_stat_shmem_bytes" "memory.stat" "shmem", 0,
          some (.set "cgroup_memory_stat_shmem_bytes" ("web", "", "") 0)⟩ ] := by
  decide

end CgroupExporter
